import Mathlib

/-!
# TEA5767N FM tuner driver

A shallow embedding of `src/TEA5767N.h` / `src/TEA5767N.cpp`.

* A `byte` is `Fin 256`.  C promotes bytes to `int` before `&`, `|`, `<<`, `>>`,
  so every such expression is computed on `Nat` and cut back with `toByte`
  when it is stored into a `byte`.
* `float` is IEEE binary32 and `double` is IEEE binary64 (as on the 32-bit
  Arduino cores; on AVR `double` is a second name of `float`), with rounding
  to nearest, ties to even, and every operation rounded to its own type.  A
  floating-point value is carried as the rational it denotes; `toFloat` and
  `toDouble` give the value a rational becomes in the type.  The exponent
  range is not bounded, so results below the smallest normal number or above
  the largest finite one are outside the model.
* A parameter of type `float` holds a value of that type: the conversion of an
  argument belongs to the call, so the callers inside the driver convert with
  `toFloat`, and the literals `87.0` and `108.0` are `float` values as they
  stand.
* `int` and `unsigned int` have 16 bits or more.  Where a conversion or an
  operation is undefined in C++ for a value that does not fit, the statements
  that depend on it ask for the value to fit 16 bits.
* The global `Wire` object is the record `TwoWire`, carried inside the driver
  state: a log of completed transmissions and a script of the answers the
  device will give to the coming `requestFrom` calls.
* `delay` has no effect on the state and is left out.
-/

namespace TEA5767

/-- A `byte` of the Arduino core: an unsigned 8-bit value. -/
abbrev Byte := Fin 256

/-- Storing an `int`/`unsigned int` value into a `byte` keeps its low 8 bits. -/
def toByte (n : Nat) : Byte := ⟨n % 256, Nat.mod_lt _ (by decide)⟩

/-- Conversion of a non-integral value to `unsigned int`: the fractional part
is discarded (truncation toward zero), so every value above `-1` that fits the
type becomes the natural number `⌊q⌋` (or `0` between `-1` and `0`).  Outside
that range C++ leaves the conversion undefined; the embedding then returns
`⌊q⌋` unreduced, respectively `0`. -/
def toUnsigned (q : ℚ) : Nat := Int.toNat ⌊q⌋

/-! ## Floating point -/

/-- Counts the binary digits of `n`, looking at no more than `fuel` of them. -/
def bitLengthAux : Nat → Nat → Nat
  | 0, _ => 0
  | fuel + 1, n => if n = 0 then 0 else bitLengthAux fuel (n / 2) + 1

/-- The number of binary digits of `n` (`0` for `0`). -/
def bitLength (n : Nat) : Nat := bitLengthAux n n

/-- The binary exponent of a non-zero `x`: the `e` with `2^e ≤ |x| < 2^(e+1)`. -/
def binaryExponent (x : ℚ) : ℤ :=
  if (2 : ℚ) ^ ((bitLength x.num.natAbs : ℤ) - (bitLength x.den : ℤ)) ≤ |x| then
    (bitLength x.num.natAbs : ℤ) - (bitLength x.den : ℤ)
  else (bitLength x.num.natAbs : ℤ) - (bitLength x.den : ℤ) - 1

/-- Rounding to the nearest integer, a tie going to the even neighbour. -/
def roundNearestEven (t : ℚ) : ℤ :=
  if t - ⌊t⌋ < 1 / 2 then ⌊t⌋
  else if 1 / 2 < t - ⌊t⌋ then ⌊t⌋ + 1
  else if ⌊t⌋ % 2 = 0 then ⌊t⌋ else ⌊t⌋ + 1

/-- Rounding to the nearest binary floating-point number with `p` significant
bits, ties to even: `x` is scaled by its unit in the last place
`2^(e - (p - 1))`, rounded to an integer and scaled back. -/
def roundToPrecision (p : Nat) (x : ℚ) : ℚ :=
  if x = 0 then 0
  else (roundNearestEven (x / 2 ^ (binaryExponent x - ((p : ℤ) - 1))) : ℚ)
    * 2 ^ (binaryExponent x - ((p : ℤ) - 1))

/-- The value `x` becomes as a `float` (binary32, 24 significant bits). -/
def toFloat (x : ℚ) : ℚ := roundToPrecision 24 x

/-- The value `x` becomes as a `double` (binary64, 53 significant bits). -/
def toDouble (x : ℚ) : ℚ := roundToPrecision 53 x

/-! ## Constants of `TEA5767N.h` -/

def TEA5767_I2C_ADDRESS : Nat := 0x60

def FIRST_DATA : Fin 5 := 0
def SECOND_DATA : Fin 5 := 1
def THIRD_DATA : Fin 5 := 2
def FOURTH_DATA : Fin 5 := 3
def FIFTH_DATA : Fin 5 := 4

def LOW_STOP_LEVEL : Nat := 1
def MID_STOP_LEVEL : Nat := 2
def HIGH_STOP_LEVEL : Nat := 3

/-! ## Data model -/

/-- A `byte[5]` register image; the field names are the index macros of the
header, so `d.THIRD_DATA` is `d[THIRD_DATA]`. -/
structure Data where
  FIRST_DATA : Byte
  SECOND_DATA : Byte
  THIRD_DATA : Byte
  FOURTH_DATA : Byte
  FIFTH_DATA : Byte
deriving DecidableEq, Repr

/-- Array indexing `d[i]`. -/
def Data.get (d : Data) (i : Fin 5) : Byte :=
  match i with
  | 0 => d.FIRST_DATA
  | 1 => d.SECOND_DATA
  | 2 => d.THIRD_DATA
  | 3 => d.FOURTH_DATA
  | 4 => d.FIFTH_DATA

/-- The five bytes in index order, as `for (i = 0; i < 5; i++)` visits them. -/
def Data.toList (d : Data) : List Byte :=
  [d.FIRST_DATA, d.SECOND_DATA, d.THIRD_DATA, d.FOURTH_DATA, d.FIFTH_DATA]

/-- The two-wire bus as the driver sees it.
* `written`: the transmissions completed so far, each the device address and
  the bytes queued between `beginTransmission` and `endTransmission`; the most
  recent one is the head of the list.
* `incoming`: for each coming `requestFrom`, the bytes the device delivers
  (the empty list when nothing arrives); once the script is used up nothing
  arrives any more.
* `requests`: the number of `requestFrom` calls made so far. -/
structure TwoWire where
  written : List (Nat × List Byte)
  incoming : List (List Byte)
  requests : Nat
deriving DecidableEq, Repr

/-- The private members of `class TEA5767N`, together with the bus. -/
structure TEA5767N where
  frequency : ℚ
  hiInjection : Byte
  frequencyH : Byte
  frequencyL : Byte
  transmission_data : Data
  reception_data : Data
  muted : Bool
  mutedLeft : Bool
  mutedRight : Bool
  softMuted : Bool
  highCutControl : Bool
  stereoNoiseCancelling : Bool
  standby : Bool
  forcedMono : Bool
  Wire : TwoWire
deriving DecidableEq

namespace TEA5767N

/-! ## Bus session -/

/-- Lines 36-64: the fixed default image. -/
def initializeTransmissionData (s : TEA5767N) : TEA5767N :=
  { s with transmission_data :=
      { FIRST_DATA := toByte 0
        SECOND_DATA := toByte 0
        THIRD_DATA := toByte 0xB0
        FOURTH_DATA := toByte 0x10
        FIFTH_DATA := toByte 0x00 } }

/-- Lines 21-34, the constructor `TEA5767N::TEA5767N()`, run over the storage
`mem` of the object: the members it does not assign (`frequency`,
`hiInjection`, `frequencyH`, `frequencyL`, `reception_data`) keep whatever
`mem` holds. -/
def new (mem : TEA5767N) : TEA5767N :=
  let s := initializeTransmissionData mem
  { s with
    muted := false
    mutedLeft := false
    mutedRight := false
    softMuted := false
    highCutControl := false
    stereoNoiseCancelling := false
    standby := false
    forcedMono := false }

/-- Lines 66-75: one transmission of the five bytes of `transmission_data`, in
index order, to the device address. -/
def transmitData (s : TEA5767N) : TEA5767N :=
  { s with Wire :=
      { s.Wire with
        written := (TEA5767_I2C_ADDRESS, s.transmission_data.toList) :: s.Wire.written } }

/-- Lines 77-88: `requestFrom(address, 5)` takes at most five of the bytes the
device delivers; when `available()` is non-zero the five `read()` calls fill
`reception_data` in index order, a `read()` from the exhausted buffer giving
`-1`, stored as `0xFF`. -/
def readStatus (s : TEA5767N) : TEA5767N :=
  let buffer := (s.Wire.incoming.headD []).take 5
  let s := { s with Wire :=
    { s.Wire with incoming := s.Wire.incoming.tail, requests := s.Wire.requests + 1 } }
  if buffer.length ≠ 0 then
    { s with reception_data :=
        { FIRST_DATA := buffer.getD 0 (toByte 0xFF)
          SECOND_DATA := buffer.getD 1 (toByte 0xFF)
          THIRD_DATA := buffer.getD 2 (toByte 0xFF)
          FOURTH_DATA := buffer.getD 3 (toByte 0xFF)
          FIFTH_DATA := buffer.getD 4 (toByte 0xFF) } }
  else s

/-! ## Register codec: plain field writes -/

/-- Lines 272-275. -/
def setSearchUp (s : TEA5767N) : TEA5767N :=
  { s with transmission_data.THIRD_DATA :=
      toByte (s.transmission_data.THIRD_DATA.val ||| 0b10000000) }

/-- Lines 277-280. -/
def setSearchDown (s : TEA5767N) : TEA5767N :=
  { s with transmission_data.THIRD_DATA :=
      toByte (s.transmission_data.THIRD_DATA.val &&& 0b01111111) }

/-- Lines 282-286. -/
def setSearchLowStopLevel (s : TEA5767N) : TEA5767N :=
  let b := toByte (s.transmission_data.THIRD_DATA.val &&& 0b10011111)
  let s := { s with transmission_data.THIRD_DATA := b }
  { s with transmission_data.THIRD_DATA :=
      toByte (s.transmission_data.THIRD_DATA.val ||| (LOW_STOP_LEVEL <<< 5)) }

/-- Lines 288-292. -/
def setSearchMidStopLevel (s : TEA5767N) : TEA5767N :=
  let b := toByte (s.transmission_data.THIRD_DATA.val &&& 0b10011111)
  let s := { s with transmission_data.THIRD_DATA := b }
  { s with transmission_data.THIRD_DATA :=
      toByte (s.transmission_data.THIRD_DATA.val ||| (MID_STOP_LEVEL <<< 5)) }

/-- Lines 294-298. -/
def setSearchHighStopLevel (s : TEA5767N) : TEA5767N :=
  let b := toByte (s.transmission_data.THIRD_DATA.val &&& 0b10011111)
  let s := { s with transmission_data.THIRD_DATA := b }
  { s with transmission_data.THIRD_DATA :=
      toByte (s.transmission_data.THIRD_DATA.val ||| (HIGH_STOP_LEVEL <<< 5)) }

/-- Lines 300-303. -/
def setHighSideLOInjection (s : TEA5767N) : TEA5767N :=
  { s with transmission_data.THIRD_DATA :=
      toByte (s.transmission_data.THIRD_DATA.val ||| 0b00010000) }

/-- Lines 305-308. -/
def setLowSideLOInjection (s : TEA5767N) : TEA5767N :=
  { s with transmission_data.THIRD_DATA :=
      toByte (s.transmission_data.THIRD_DATA.val &&& 0b11101111) }

/-- Lines 425-428. -/
def isSearchUp (s : TEA5767N) : Byte :=
  if s.transmission_data.THIRD_DATA.val &&& 0b10000000 ≠ 0 then toByte 1 else toByte 0

/-- Lines 430-433. -/
def isSearchDown (s : TEA5767N) : Byte :=
  if s.transmission_data.THIRD_DATA.val &&& 0b10000000 = 0 then toByte 1 else toByte 0

/-! ## Register codec: the PLL word -/

/-- The value given to the local `unsigned int frequencyW` of `setFrequency`
(lines 111-120) for the member values `hiInjection` and `frequency`: the
integer operands are converted to `float`, each of the four operations is
rounded to `float`, and the result is converted to `unsigned int`. -/
def frequencyW (hiInjection : Byte) (frequency : ℚ) : Nat :=
  if hiInjection.val ≠ 0 then
    toUnsigned (toFloat (toFloat (4 * toFloat (toFloat (frequency * 1000000) + 225000)) / 32768))
  else
    toUnsigned (toFloat (toFloat (4 * toFloat (toFloat (frequency * 1000000) - 225000)) / 32768))

/-- Lines 106-124. -/
def setFrequency (s : TEA5767N) (_frequency : ℚ) : TEA5767N :=
  let s := { s with frequency := _frequency }
  let w := frequencyW s.hiInjection s.frequency
  let s := if s.hiInjection.val ≠ 0 then s.setHighSideLOInjection else s.setLowSideLOInjection
  let b := toByte ((s.transmission_data.FIRST_DATA.val &&& 0xC0) ||| ((w >>> 8) &&& 0x3F))
  let s := { s with transmission_data.FIRST_DATA := b }
  { s with transmission_data.SECOND_DATA := toByte (w &&& 0xFF) }

/-- Lines 252-262: the word is converted to `double`, each of the four
operations is rounded to `double`, and the result is returned as a `float`. -/
def getFrequencyInMHz (s : TEA5767N) (frequencyW : Nat) : ℚ :=
  if s.hiInjection.val ≠ 0 then
    toFloat (toDouble (toDouble (toDouble (toDouble ((frequencyW : ℚ) / 4.0) * 32768.0)
      - 225000.0) / 1000000.0))
  else
    toFloat (toDouble (toDouble (toDouble (toDouble ((frequencyW : ℚ) / 4.0) * 32768.0)
      + 225000.0) / 1000000.0))

/-- Lines 244-250. -/
def loadFrequency (s : TEA5767N) : TEA5767N :=
  let s := s.readStatus
  let b := toByte ((s.transmission_data.FIRST_DATA.val &&& 0xC0) |||
    (s.reception_data.FIRST_DATA.val &&& 0x3F))
  let s := { s with transmission_data.FIRST_DATA := b }
  { s with transmission_data.SECOND_DATA := s.reception_data.SECOND_DATA }

/-- Lines 264-270: the state after the call and the value returned. -/
def readFrequencyInMHz (s : TEA5767N) : TEA5767N × ℚ :=
  let s := s.loadFrequency
  let frequencyW : Nat :=
    ((s.reception_data.FIRST_DATA.val &&& 0x3F) * 256) + s.reception_data.SECOND_DATA.val
  (s, s.getFrequencyInMHz frequencyW)

/-! ## Status getters (each returns the state after the call and its result) -/

/-- Lines 398-405. -/
def getSignalLevel (s : TEA5767N) : TEA5767N × Byte :=
  let s := s.transmitData
  let s := s.readStatus
  (s, toByte (s.reception_data.FOURTH_DATA.val >>> 4))

/-- Lines 407-411. -/
def isStereo (s : TEA5767N) : TEA5767N × Byte :=
  let s := s.readStatus
  (s, toByte (s.reception_data.THIRD_DATA.val >>> 7))

/-- Lines 413-417. -/
def isReady (s : TEA5767N) : TEA5767N × Byte :=
  let s := s.readStatus
  (s, toByte (s.reception_data.FIRST_DATA.val >>> 7))

/-- Lines 419-423. -/
def isBandLimitReached (s : TEA5767N) : TEA5767N × Byte :=
  let s := s.readStatus
  (s, toByte ((s.reception_data.FIRST_DATA.val >>> 6) &&& 1))

/-- Lines 435-439. -/
def isStandBy (s : TEA5767N) : TEA5767N × Bool :=
  let s := s.readStatus
  (s, decide (s.transmission_data.FOURTH_DATA.val &&& 0b01000000 ≠ 0))

/-- Lines 190-193. -/
def isMuted (s : TEA5767N) : Bool := s.muted

/-- Lines 195-198. -/
def isMutedLeft (s : TEA5767N) : Bool := s.mutedLeft

/-- Lines 200-203. -/
def isMutedRight (s : TEA5767N) : Bool := s.mutedRight

/-- Lines 205-208. -/
def isSoftMuted (s : TEA5767N) : Bool := s.softMuted

/-! ## Toggle operations -/

/-- Lines 126-140. -/
def toggleMute (s : TEA5767N) : TEA5767N :=
  let s := { s with muted := !s.muted }
  let b :=
    if s.muted then toByte (s.transmission_data.FIRST_DATA.val ||| 0b10000000)
    else toByte (s.transmission_data.FIRST_DATA.val &&& 0b01111111)
  let s := { s with transmission_data.FIRST_DATA := b }
  s.transmitData

/-- Lines 142-156; the bit is chosen by `mutedRight`. -/
def toggleMuteLeft (s : TEA5767N) : TEA5767N :=
  let s := { s with mutedLeft := !s.mutedLeft }
  let b :=
    if s.mutedRight then toByte (s.transmission_data.THIRD_DATA.val ||| 0b00000010)
    else toByte (s.transmission_data.THIRD_DATA.val &&& 0b11111101)
  let s := { s with transmission_data.THIRD_DATA := b }
  s.transmitData

/-- Lines 158-172. -/
def toggleMuteRight (s : TEA5767N) : TEA5767N :=
  let s := { s with mutedRight := !s.mutedRight }
  let b :=
    if s.mutedRight then toByte (s.transmission_data.THIRD_DATA.val ||| 0b00000100)
    else toByte (s.transmission_data.THIRD_DATA.val &&& 0b11111011)
  let s := { s with transmission_data.THIRD_DATA := b }
  s.transmitData

/-- Lines 174-188. -/
def toggleSoftMute (s : TEA5767N) : TEA5767N :=
  let s := { s with softMuted := !s.softMuted }
  let b :=
    if s.softMuted then toByte (s.transmission_data.FOURTH_DATA.val ||| 0b00001000)
    else toByte (s.transmission_data.FOURTH_DATA.val &&& 0b11110111)
  let s := { s with transmission_data.FOURTH_DATA := b }
  s.transmitData

/-- Lines 441-455. -/
def toggleForcedMono (s : TEA5767N) : TEA5767N :=
  let s := { s with forcedMono := !s.forcedMono }
  let b :=
    if s.forcedMono then toByte (s.transmission_data.THIRD_DATA.val ||| 0b00001000)
    else toByte (s.transmission_data.THIRD_DATA.val &&& 0b11110111)
  let s := { s with transmission_data.THIRD_DATA := b }
  s.transmitData

/-- Lines 457-471. -/
def toggleStandby (s : TEA5767N) : TEA5767N :=
  let s := { s with standby := !s.standby }
  let b :=
    if s.standby then toByte (s.transmission_data.FOURTH_DATA.val ||| 0b01000000)
    else toByte (s.transmission_data.FOURTH_DATA.val &&& 0b10111111)
  let s := { s with transmission_data.FOURTH_DATA := b }
  s.transmitData

/-- Lines 473-487. -/
def toggleHighCutControl (s : TEA5767N) : TEA5767N :=
  let s := { s with highCutControl := !s.highCutControl }
  let b :=
    if s.highCutControl then toByte (s.transmission_data.FOURTH_DATA.val ||| 0b00000100)
    else toByte (s.transmission_data.FOURTH_DATA.val &&& 0b11111011)
  let s := { s with transmission_data.FOURTH_DATA := b }
  s.transmitData

/-- Lines 489-503. -/
def toggleStereoNoiseCancelling (s : TEA5767N) : TEA5767N :=
  let s := { s with stereoNoiseCancelling := !s.stereoNoiseCancelling }
  let b :=
    if s.stereoNoiseCancelling then toByte (s.transmission_data.FOURTH_DATA.val ||| 0b00000010)
    else toByte (s.transmission_data.FOURTH_DATA.val &&& 0b11111101)
  let s := { s with transmission_data.FOURTH_DATA := b }
  s.transmitData

/-! ## Tuning -/

/-- Lines 90-104; `freq + 0.45` and `freq - 0.45` are `double` operations on
the `double` nearest to 0.45, and `(float)` rounds their results. -/
def calculateOptimalLOInjection (s : TEA5767N) (freq : ℚ) : TEA5767N :=
  let s := s.setHighSideLOInjection
  let s := s.setFrequency (toFloat (toDouble (freq + toDouble 0.45)))
  let (s, signalHigh) := s.getSignalLevel
  let s := s.setLowSideLOInjection
  let s := s.setFrequency (toFloat (toDouble (freq - toDouble 0.45)))
  let (s, signalLow) := s.getSignalLevel
  { s with hiInjection := if signalHigh.val < signalLow.val then toByte 1 else toByte 0 }

/-- Lines 210-225. -/
def selectFrequency (s : TEA5767N) (frequency : ℚ) (muteDuringUpdate : Bool) : TEA5767N :=
  let s := if muteDuringUpdate then ({ s with muted := false }).toggleMute else s
  let s := s.calculateOptimalLOInjection frequency
  let s := s.setFrequency frequency
  if muteDuringUpdate then s.toggleMute else s

/-- Lines 227-242.  `channel - 200` is an `int` operation, taken here without
overflow (C++ leaves an overflowing one undefined); the product and the sum
are `double` operations on the `double`s nearest to 0.2 and 87.9, and the
result is stored in a `float`. -/
def selectChannel (s : TEA5767N) (channel : Int) (muteDuringUpdate : Bool) : TEA5767N :=
  let s := if muteDuringUpdate then ({ s with muted := false }).toggleMute else s
  let frequency : ℚ :=
    toFloat (toDouble (toDouble 87.9 + toDouble ((((channel - 200 : Int)) : ℚ) * toDouble 0.2)))
  let s := s.selectFrequency frequency false
  if muteDuringUpdate then s.toggleMute else s

/-! ## Station search

The loop `while (!isReady()) {}` has no bound in the source.  `awaitReady`
runs it for at most `fuel` polls and answers `none` when the ready flag has not
shown up by then; the search operations pass that answer on. -/

/-- Lines 332-334: poll `isReady` until it answers non-zero. -/
def awaitReady : Nat → TEA5767N → Option TEA5767N
  | 0, _ => none
  | fuel + 1, s =>
    let (s, ready) := s.isReady
    if ready.val = 0 then awaitReady fuel s else some s

/-- Lines 314-330 of `searchNext`: everything up to and including the
transmission that starts the search.  The nudge by 0.1 is a `double` operation
whose result is passed as a `float`. -/
def searchNext_enter (s : TEA5767N) (muteDuringSearch : Bool) : TEA5767N :=
  let s := if muteDuringSearch then ({ s with muted := false }).toggleMute else s
  let s :=
    if s.isSearchUp.val ≠ 0 then
      let (s, f) := s.readFrequencyInMHz
      s.selectFrequency (toFloat (toDouble (f + toDouble 0.1))) false
    else
      let (s, f) := s.readFrequencyInMHz
      s.selectFrequency (toFloat (toDouble (f - toDouble 0.1))) false
  let b := toByte (s.transmission_data.FIRST_DATA.val ||| 0b01000000)
  let s := { s with transmission_data.FIRST_DATA := b }
  s.transmitData

/-- Lines 336-347 of `searchNext`: what follows the polling loop. -/
def searchNext_leave (s : TEA5767N) (muteDuringSearch : Bool) : TEA5767N × Byte :=
  let (s, bandLimitReached) := s.isBandLimitReached
  let s := s.loadFrequency
  let b := toByte (s.transmission_data.FIRST_DATA.val &&& 0b10111111)
  let s := { s with transmission_data.FIRST_DATA := b }
  let s := s.transmitData
  let s := if muteDuringSearch then s.toggleMute else s
  (s, bandLimitReached)

/-- Lines 310-348. -/
def searchNext (fuel : Nat) (s : TEA5767N) (muteDuringSearch : Bool) :
    Option (TEA5767N × Byte) :=
  match awaitReady fuel (s.searchNext_enter muteDuringSearch) with
  | none => none
  | some s => some (s.searchNext_leave muteDuringSearch)

/-- Lines 350-354. -/
def searchFrom (fuel : Nat) (s : TEA5767N) (frequency : ℚ) (muteDuringSearch : Bool) :
    Option (TEA5767N × Byte) :=
  let s := s.selectFrequency frequency false
  searchNext fuel s muteDuringSearch

/-- Lines 356-375. -/
def searchFromBeginning (fuel : Nat) (s : TEA5767N) (muteDuringSearch : Bool) :
    Option (TEA5767N × Byte) :=
  let s := s.setSearchUp
  let s := if muteDuringSearch then ({ s with muted := false }).toggleMute else s
  match searchFrom fuel s 87.0 false with
  | none => none
  | some (s, bandLimitReached) =>
    let s := if muteDuringSearch then s.toggleMute else s
    some (s, bandLimitReached)

/-- Lines 377-396. -/
def searchFromEnd (fuel : Nat) (s : TEA5767N) (muteDuringSearch : Bool) :
    Option (TEA5767N × Byte) :=
  let s := s.setSearchDown
  let s := if muteDuringSearch then ({ s with muted := false }).toggleMute else s
  match searchFrom fuel s 108.0 false with
  | none => none
  | some (s, bandLimitReached) =>
    let s := if muteDuringSearch then s.toggleMute else s
    some (s, bandLimitReached)

end TEA5767N

/-! ## The field-writing operations and the bits each one owns -/

/-- The operations that write one field of the transmission image. -/
inductive FieldWrite where
  | toggleMute
  | toggleMuteLeft
  | toggleMuteRight
  | toggleForcedMono
  | toggleSoftMute
  | toggleStandby
  | toggleHighCutControl
  | toggleStereoNoiseCancelling
  | setSearchUp
  | setSearchDown
  | setSearchLowStopLevel
  | setSearchMidStopLevel
  | setSearchHighStopLevel
  | setHighSideLOInjection
  | setLowSideLOInjection
deriving DecidableEq, Repr

/-- Running a field-writing operation. -/
def FieldWrite.run : FieldWrite → TEA5767N → TEA5767N
  | .toggleMute => TEA5767N.toggleMute
  | .toggleMuteLeft => TEA5767N.toggleMuteLeft
  | .toggleMuteRight => TEA5767N.toggleMuteRight
  | .toggleForcedMono => TEA5767N.toggleForcedMono
  | .toggleSoftMute => TEA5767N.toggleSoftMute
  | .toggleStandby => TEA5767N.toggleStandby
  | .toggleHighCutControl => TEA5767N.toggleHighCutControl
  | .toggleStereoNoiseCancelling => TEA5767N.toggleStereoNoiseCancelling
  | .setSearchUp => TEA5767N.setSearchUp
  | .setSearchDown => TEA5767N.setSearchDown
  | .setSearchLowStopLevel => TEA5767N.setSearchLowStopLevel
  | .setSearchMidStopLevel => TEA5767N.setSearchMidStopLevel
  | .setSearchHighStopLevel => TEA5767N.setSearchHighStopLevel
  | .setHighSideLOInjection => TEA5767N.setHighSideLOInjection
  | .setLowSideLOInjection => TEA5767N.setLowSideLOInjection

/-- The field of an operation per the layout comment of the header (lines
78-125): the byte it lives in and the mask of its bits. -/
def FieldWrite.field : FieldWrite → Fin 5 × Nat
  | .toggleMute => (FIRST_DATA, 0b10000000)
  | .toggleMuteLeft => (THIRD_DATA, 0b00000010)
  | .toggleMuteRight => (THIRD_DATA, 0b00000100)
  | .toggleForcedMono => (THIRD_DATA, 0b00001000)
  | .toggleSoftMute => (FOURTH_DATA, 0b00001000)
  | .toggleStandby => (FOURTH_DATA, 0b01000000)
  | .toggleHighCutControl => (FOURTH_DATA, 0b00000100)
  | .toggleStereoNoiseCancelling => (FOURTH_DATA, 0b00000010)
  | .setSearchUp => (THIRD_DATA, 0b10000000)
  | .setSearchDown => (THIRD_DATA, 0b10000000)
  | .setSearchLowStopLevel => (THIRD_DATA, 0b01100000)
  | .setSearchMidStopLevel => (THIRD_DATA, 0b01100000)
  | .setSearchHighStopLevel => (THIRD_DATA, 0b01100000)
  | .setHighSideLOInjection => (THIRD_DATA, 0b00010000)
  | .setLowSideLOInjection => (THIRD_DATA, 0b00010000)

/-- Bit `k` of byte `i` belongs to the field of `op`. -/
def FieldWrite.owns (op : FieldWrite) (i : Fin 5) (k : Nat) : Bool :=
  decide (i = op.field.1) && op.field.2.testBit k

/-! ## The toggle operations and the public interface -/

/-- The eight toggle operations. -/
inductive Toggle where
  | toggleMute
  | toggleMuteLeft
  | toggleMuteRight
  | toggleSoftMute
  | toggleStandby
  | toggleForcedMono
  | toggleHighCutControl
  | toggleStereoNoiseCancelling
deriving DecidableEq, Repr

/-- Running a toggle operation. -/
def Toggle.run : Toggle → TEA5767N → TEA5767N
  | .toggleMute => TEA5767N.toggleMute
  | .toggleMuteLeft => TEA5767N.toggleMuteLeft
  | .toggleMuteRight => TEA5767N.toggleMuteRight
  | .toggleSoftMute => TEA5767N.toggleSoftMute
  | .toggleStandby => TEA5767N.toggleStandby
  | .toggleForcedMono => TEA5767N.toggleForcedMono
  | .toggleHighCutControl => TEA5767N.toggleHighCutControl
  | .toggleStereoNoiseCancelling => TEA5767N.toggleStereoNoiseCancelling

/-- Running a sequence of toggle operations, first to last. -/
def Toggle.runAll (ts : List Toggle) (s : TEA5767N) : TEA5767N :=
  ts.foldl (fun s t => t.run s) s

/-- A call of a member of the `public:` section of the class (header lines
175-212); the search operations carry the bound on the polls of their loop. -/
inductive PublicCall where
  | selectFrequency (frequency : ℚ) (muteDuringUpdate : Bool)
  | selectChannel (channel : Int) (muteDuringUpdate : Bool)
  | readFrequencyInMHz
  | setSearchUp
  | setSearchDown
  | setSearchLowStopLevel
  | setSearchMidStopLevel
  | setSearchHighStopLevel
  | toggleMute
  | toggleMuteLeft
  | toggleMuteRight
  | toggleSoftMute
  | toggleStandby
  | toggleHighCutControl
  | toggleStereoNoiseCancelling
  | toggleForcedMono
  | searchNext (fuel : Nat) (muteDuringSearch : Bool)
  | searchFrom (fuel : Nat) (frequency : ℚ) (muteDuringSearch : Bool)
  | searchFromBeginning (fuel : Nat) (muteDuringSearch : Bool)
  | searchFromEnd (fuel : Nat) (muteDuringSearch : Bool)
  | getSignalLevel
  | isStereo
  | isSearchUp
  | isSearchDown
  | isMuted
  | isMutedLeft
  | isMutedRight
  | isSoftMuted
  | isStandBy

/-- The driver state a public call leaves behind; `none` when a search has not
returned within its bound. -/
def PublicCall.run : PublicCall → TEA5767N → Option TEA5767N
  | .selectFrequency f m, s => some (s.selectFrequency f m)
  | .selectChannel c m, s => some (s.selectChannel c m)
  | .readFrequencyInMHz, s => some s.readFrequencyInMHz.1
  | .setSearchUp, s => some s.setSearchUp
  | .setSearchDown, s => some s.setSearchDown
  | .setSearchLowStopLevel, s => some s.setSearchLowStopLevel
  | .setSearchMidStopLevel, s => some s.setSearchMidStopLevel
  | .setSearchHighStopLevel, s => some s.setSearchHighStopLevel
  | .toggleMute, s => some s.toggleMute
  | .toggleMuteLeft, s => some s.toggleMuteLeft
  | .toggleMuteRight, s => some s.toggleMuteRight
  | .toggleSoftMute, s => some s.toggleSoftMute
  | .toggleStandby, s => some s.toggleStandby
  | .toggleHighCutControl, s => some s.toggleHighCutControl
  | .toggleStereoNoiseCancelling, s => some s.toggleStereoNoiseCancelling
  | .toggleForcedMono, s => some s.toggleForcedMono
  | .searchNext fuel m, s => (TEA5767N.searchNext fuel s m).map Prod.fst
  | .searchFrom fuel f m, s => (TEA5767N.searchFrom fuel s f m).map Prod.fst
  | .searchFromBeginning fuel m, s => (TEA5767N.searchFromBeginning fuel s m).map Prod.fst
  | .searchFromEnd fuel m, s => (TEA5767N.searchFromEnd fuel s m).map Prod.fst
  | .getSignalLevel, s => some s.getSignalLevel.1
  | .isStereo, s => some s.isStereo.1
  | .isSearchUp, s => some s
  | .isSearchDown, s => some s
  | .isMuted, s => some s
  | .isMutedLeft, s => some s
  | .isMutedRight, s => some s
  | .isSoftMuted, s => some s
  | .isStandBy, s => some s.isStandBy.1

/-- The driver states that the constructor followed by any sequence of public
calls can produce, over any object storage and any bus. -/
inductive Reachable : TEA5767N → Prop where
  | constructed (mem : TEA5767N) : Reachable (TEA5767N.new mem)
  | call (c : PublicCall) (s t : TEA5767N) : Reachable s → c.run s = some t → Reachable t

/-- The part of the transmission image that tuning and searching leave alone:
the third byte without its injection-side bit, the fourth and the fifth byte. -/
def TEA5767N.settings (s : TEA5767N) : Nat × Byte × Byte :=
  (s.transmission_data.THIRD_DATA.val &&& 0b11101111,
   s.transmission_data.FOURTH_DATA, s.transmission_data.FIFTH_DATA)

/-- The mute state: the member `muted` and the mute bit of the transmission image. -/
def TEA5767N.muteState (s : TEA5767N) : Bool × Bool :=
  (s.muted, s.transmission_data.FIRST_DATA.val.testBit 7)

/-! ## Concrete states used to exercise the code -/

/-- Zeroed object storage and an idle bus on which nothing ever arrives. -/
def zeroed : TEA5767N :=
  { frequency := 0
    hiInjection := 0
    frequencyH := 0
    frequencyL := 0
    transmission_data := ⟨0, 0, 0, 0, 0⟩
    reception_data := ⟨0, 0, 0, 0, 0⟩
    muted := false
    mutedLeft := false
    mutedRight := false
    softMuted := false
    highCutControl := false
    stereoNoiseCancelling := false
    standby := false
    forcedMono := false
    Wire := { written := [], incoming := [], requests := 0 } }

/-- A freshly constructed driver (`TEA5767N radio;` at file scope, whose
storage is zeroed before the constructor runs). -/
def fresh : TEA5767N := TEA5767N.new zeroed

/-- A freshly constructed driver facing a device that will answer the coming
status requests with `script`. -/
def freshWith (script : List (List Byte)) : TEA5767N :=
  { fresh with Wire := { fresh.Wire with incoming := script } }

/-- A device answering a search started on a fresh driver: three status images tuned near
100 MHz (for `readFrequencyInMHz` and the two probes), then after the search-mode
transmission one image with the ready flag and no band limit, then images with both the
ready flag and the band-limit flag. -/
def readyAtOnce : List (List Byte) :=
  [[0x2F, 0x93, 0x00, 0x50, 0x00], [0x2F, 0x93, 0x00, 0x50, 0x00], [0x2F, 0x93, 0x00, 0x50, 0x00],
   [0xAF, 0x9D, 0x00, 0x50, 0x00], [0xEF, 0x9D, 0x00, 0x50, 0x00], [0xEF, 0x9D, 0x00, 0x50, 0x00]]

/-- As `readyAtOnce`, but the first status image after the search-mode transmission does
not show the ready flag yet. -/
def readyAtSecond : List (List Byte) :=
  [[0x2F, 0x93, 0x00, 0x50, 0x00], [0x2F, 0x93, 0x00, 0x50, 0x00], [0x2F, 0x93, 0x00, 0x50, 0x00],
   [0x2F, 0x98, 0x00, 0x50, 0x00],
   [0xAF, 0x9D, 0x00, 0x50, 0x00], [0xEF, 0x9D, 0x00, 0x50, 0x00], [0xEF, 0x9D, 0x00, 0x50, 0x00]]

/-- A device answering `searchFromBeginning` or `searchFromEnd` on a fresh driver: five
status images tuned near 100 MHz (two probes of the first `selectFrequency`, then
`readFrequencyInMHz` and the two probes of `searchNext`), then an image with the ready
flag, then images with the ready flag and the band-limit flag. -/
def readyAfterTuning : List (List Byte) :=
  [[0x2F, 0x93, 0x00, 0x50, 0x00], [0x2F, 0x93, 0x00, 0x50, 0x00], [0x2F, 0x93, 0x00, 0x50, 0x00],
   [0x2F, 0x93, 0x00, 0x50, 0x00], [0x2F, 0x93, 0x00, 0x50, 0x00],
   [0xAF, 0x9D, 0x00, 0x50, 0x00], [0xEF, 0x9D, 0x00, 0x50, 0x00], [0xEF, 0x9D, 0x00, 0x50, 0x00]]

/-! # Theorems -/

/-! ## Bytes and bits -/

theorem toByte_val (n : Nat) : (toByte n).val = n % 256 := rfl

theorem byte_testBit_high (b : Byte) (k : Nat) (hk : 8 ≤ k) : b.val.testBit k = false := by
  apply Nat.testBit_eq_false_of_lt
  calc b.val < 2 ^ 8 := b.isLt
    _ ≤ 2 ^ k := Nat.pow_le_pow_right (by decide) hk

theorem toByte_testBit (n k : Nat) :
    (toByte n).val.testBit k = (decide (k < 8) && n.testBit k) := by
  rw [toByte_val, show (256 : Nat) = 2 ^ 8 from rfl, Nat.testBit_mod_two_pow]

/-- Storing `b | m` leaves every bit outside the mask `m` as it was. -/
theorem store_or_frame (b : Byte) (m k : Nat) (hm : m.testBit k = false) :
    (toByte (b.val ||| m)).val.testBit k = b.val.testBit k := by
  rw [toByte_testBit, Nat.testBit_or, hm, Bool.or_false]
  by_cases hk : k < 8
  · simp [hk]
  · simp [hk, byte_testBit_high b k (by omega)]

/-- Storing `b & m` leaves every bit inside the mask `m` as it was. -/
theorem store_and_frame (b : Byte) (m k : Nat) (hm : k < 8 → m.testBit k = true) :
    (toByte (b.val &&& m)).val.testBit k = b.val.testBit k := by
  rw [toByte_testBit, Nat.testBit_and]
  by_cases hk : k < 8
  · simp [hk, hm hk]
  · simp [hk, byte_testBit_high b k (by omega)]


theorem mask_inside (own m k : Nat) (hs : m &&& own = m) (ho : own.testBit k = false) :
    m.testBit k = false := by
  rw [← hs, Nat.testBit_and, ho, Bool.and_false]

theorem mask_outside (own m k : Nat) (hc : own ^^^ m = 2 ^ 8 - 1) (ho : own.testBit k = false)
    (hk : k < 8) : m.testBit k = true := by
  have h := congrArg (fun n => n.testBit k) hc
  simp only [Nat.testBit_xor, ho, Nat.testBit_two_pow_sub_one, hk, decide_True] at h
  simpa using h

theorem store_or_keeps (b : Byte) (own m k : Nat) (hs : m &&& own = m)
    (ho : own.testBit k = false) :
    (toByte (b.val ||| m)).val.testBit k = b.val.testBit k :=
  store_or_frame b m k (mask_inside own m k hs ho)

theorem store_and_keeps (b : Byte) (own m k : Nat) (hc : own ^^^ m = 2 ^ 8 - 1)
    (ho : own.testBit k = false) :
    (toByte (b.val &&& m)).val.testBit k = b.val.testBit k :=
  store_and_frame b m k (mask_outside own m k hc ho)

theorem owns_false_elim (op : FieldWrite) (i : Fin 5) (k : Nat) (h : op.owns i k = false) :
    i ≠ op.field.1 ∨ op.field.2.testBit k = false := by
  unfold FieldWrite.owns at h
  by_cases hi : i = op.field.1
  · right; simpa [hi] using h
  · left; exact hi



/-- A field write leaves the bytes other than the one holding its field untouched. -/
theorem FieldWrite.run_other_byte (op : FieldWrite) (s : TEA5767N) (i : Fin 5)
    (hi : i ≠ op.field.1) :
    (op.run s).transmission_data.get i = s.transmission_data.get i := by
  cases op <;> fin_cases i <;> first | (exfalso; exact hi rfl) | rfl

open TEA5767N in
/-- In the byte holding its field, a field write leaves the bits outside the field untouched. -/
theorem FieldWrite.run_own_byte (op : FieldWrite) (s : TEA5767N) (k : Nat)
    (hb : op.field.2.testBit k = false) :
    ((op.run s).transmission_data.get op.field.1).val.testBit k
      = (s.transmission_data.get op.field.1).val.testBit k := by
  cases op
  case setSearchUp => exact store_or_keeps _ _ _ k (by decide) hb
  case setSearchDown => exact store_and_keeps _ _ _ k (by decide) hb
  case setHighSideLOInjection => exact store_or_keeps _ _ _ k (by decide) hb
  case setLowSideLOInjection => exact store_and_keeps _ _ _ k (by decide) hb
  case setSearchLowStopLevel =>
    exact (store_or_keeps _ _ _ k (by decide) hb).trans (store_and_keeps _ _ _ k (by decide) hb)
  case setSearchMidStopLevel =>
    exact (store_or_keeps _ _ _ k (by decide) hb).trans (store_and_keeps _ _ _ k (by decide) hb)
  case setSearchHighStopLevel =>
    exact (store_or_keeps _ _ _ k (by decide) hb).trans (store_and_keeps _ _ _ k (by decide) hb)
  all_goals
    show (if _ then _ else _ : Byte).val.testBit k = _
    split
    · exact store_or_keeps _ _ _ k (by decide) hb
    · exact store_and_keeps _ _ _ k (by decide) hb

/-- C1. Field isolation: each field-writing operation (the eight toggles, `setSearchUp`,
`setSearchDown`, the three stop-level setters and the two injection-side setters) leaves
every bit of the five transmission bytes that is outside its own field exactly as it was. -/
theorem field_write_changes_only_its_field (op : FieldWrite) (s : TEA5767N) (i : Fin 5)
    (k : Nat) (h : op.owns i k = false) :
    ((op.run s).transmission_data.get i).val.testBit k
      = (s.transmission_data.get i).val.testBit k := by
  rcases owns_false_elim op i k h with hi | hb
  · rw [FieldWrite.run_other_byte op s i hi]
  · by_cases hi : i = op.field.1
    · subst hi
      exact FieldWrite.run_own_byte op s k hb
    · rw [FieldWrite.run_other_byte op s i hi]

/-- Witness of C1: muting the left channel of a fresh driver leaves the injection-side
bit (bit 4) of the third byte alone. -/
theorem field_write_changes_only_its_field_witness :
    FieldWrite.toggleMuteLeft.owns 2 4 = false ∧
    ((FieldWrite.toggleMuteLeft.run fresh).transmission_data.get 2).val.testBit 4
      = (fresh.transmission_data.get 2).val.testBit 4 :=
  ⟨by decide, field_write_changes_only_its_field .toggleMuteLeft fresh 2 4 (by decide)⟩

/-! ## The boolean members and their bits -/

/-- C2, at the failing input: after `TEA5767N radio; radio.toggleMuteLeft();` the member
`mutedLeft` is true while the mute-left bit (third byte, bit 1) of the transmission image
is 0, because `toggleMuteLeft` picks the bit from `mutedRight`. -/
theorem toggleMuteLeft_breaks_mirror :
    fresh.toggleMuteLeft.mutedLeft = true ∧
    fresh.toggleMuteLeft.transmission_data.THIRD_DATA.val.testBit 1 = false ∧
    fresh.toggleMuteLeft.transmission_data.toList = [0x00, 0x00, 0xB0, 0x10, 0x00] := by
  decide

/-- C3, at the failing input: after `toggleMuteRight()` on a fresh driver the third byte
is `0xB4`; two calls of `toggleMuteLeft()` in a row turn it into `0xB6` instead of
restoring it, while the eight boolean members do come back. -/
theorem toggleMuteLeft_twice_not_restoring :
    fresh.toggleMuteRight.transmission_data.toList = [0x00, 0x00, 0xB4, 0x10, 0x00] ∧
    fresh.toggleMuteRight.toggleMuteLeft.toggleMuteLeft.transmission_data.toList
      = [0x00, 0x00, 0xB6, 0x10, 0x00] ∧
    fresh.toggleMuteRight.toggleMuteLeft.toggleMuteLeft.mutedLeft
      = fresh.toggleMuteRight.mutedLeft := by
  decide

open TEA5767N

/-! ## Floating point rounding -/

theorem bitLengthAux_spec : ∀ (fuel n : Nat), n ≤ fuel → n ≠ 0 →
    2 ^ bitLengthAux fuel n ≤ 2 * n ∧ n < 2 ^ bitLengthAux fuel n := by
  intro fuel
  induction fuel with
  | zero =>
    intro n hn h0
    exact absurd (Nat.le_zero.mp hn) h0
  | succ fuel ih =>
    intro n hn h0
    have hstep : bitLengthAux (fuel + 1) n = bitLengthAux fuel (n / 2) + 1 := by
      simp only [bitLengthAux, h0, if_false]
    rw [hstep]
    by_cases h2 : n / 2 = 0
    · have h1 : n = 1 := by omega
      have hz : bitLengthAux fuel (n / 2) = 0 := by
        rw [h2]
        cases fuel with
        | zero => rfl
        | succ g => simp [bitLengthAux]
      rw [hz, h1]
      decide
    · obtain ⟨ha, hb⟩ := ih (n / 2) (by omega) h2
      rw [pow_succ]
      constructor <;> omega

theorem bitLength_spec (n : Nat) (h0 : n ≠ 0) :
    2 ^ bitLength n ≤ 2 * n ∧ n < 2 ^ bitLength n :=
  bitLengthAux_spec n n (le_refl n) h0

theorem two_zpow_pos (k : ℤ) : (0 : ℚ) < 2 ^ k := zpow_pos (by norm_num) k

/-- The binary exponent brackets a non-zero value. -/
theorem binaryExponent_spec (x : ℚ) (hx : x ≠ 0) :
    (2 : ℚ) ^ binaryExponent x ≤ |x| ∧ |x| < 2 ^ (binaryExponent x + 1) := by
  have hn0 : x.num.natAbs ≠ 0 := by
    intro h
    exact hx (Rat.num_eq_zero.mp (Int.natAbs_eq_zero.mp h))
  have hd0 : x.den ≠ 0 := x.den_nz
  obtain ⟨hn1, hn2⟩ := bitLength_spec x.num.natAbs hn0
  obtain ⟨hd1, hd2⟩ := bitLength_spec x.den hd0
  have habs : |x| = (x.num.natAbs : ℚ) / (x.den : ℚ) := by
    have h1 : |x| = |(x.num : ℚ)| / (x.den : ℚ) := by
      conv_lhs => rw [← Rat.num_div_den x]
      rw [abs_div, Nat.abs_cast]
    rw [h1, Nat.cast_natAbs, Int.cast_abs]
  have hdpos : (0 : ℚ) < (x.den : ℚ) := by exact_mod_cast Nat.pos_of_ne_zero hd0
  -- bounds in ℚ
  have qn1 : (2 : ℚ) ^ (bitLength x.num.natAbs : ℤ) ≤ 2 * (x.num.natAbs : ℚ) := by
    rw [zpow_natCast]; exact_mod_cast hn1
  have qn2 : (x.num.natAbs : ℚ) < (2 : ℚ) ^ (bitLength x.num.natAbs : ℤ) := by
    rw [zpow_natCast]; exact_mod_cast hn2
  have qd1 : (2 : ℚ) ^ (bitLength x.den : ℤ) ≤ 2 * (x.den : ℚ) := by
    rw [zpow_natCast]; exact_mod_cast hd1
  have qd2 : (x.den : ℚ) < (2 : ℚ) ^ (bitLength x.den : ℤ) := by
    rw [zpow_natCast]; exact_mod_cast hd2
  have hpd := two_zpow_pos (bitLength x.den : ℤ)
  -- |x| < 2^(e0+1) and 2^(e0-1) ≤ |x|
  have hup : |x| < (2 : ℚ) ^ ((bitLength x.num.natAbs : ℤ) - (bitLength x.den : ℤ) + 1) := by
    rw [habs, div_lt_iff₀ hdpos, zpow_add₀ (by norm_num), zpow_sub₀ (by norm_num), zpow_one]
    rw [div_mul_eq_mul_div, div_mul_eq_mul_div, lt_div_iff₀ hpd]
    nlinarith
  have hlow : (2 : ℚ) ^ ((bitLength x.num.natAbs : ℤ) - (bitLength x.den : ℤ) - 1) ≤ |x| := by
    rw [habs, le_div_iff₀ hdpos, zpow_sub₀ (by norm_num), zpow_sub₀ (by norm_num), zpow_one]
    rw [div_div, div_mul_eq_mul_div, div_le_iff₀ (by positivity)]
    nlinarith
  unfold binaryExponent
  split
  · rename_i h
    exact ⟨h, hup⟩
  · rename_i h
    refine ⟨hlow, ?_⟩
    rw [sub_add_cancel]
    exact lt_of_not_le h

/-- The binary exponent is the only integer bracketing the value. -/
theorem binaryExponent_eq (x : ℚ) (k : ℤ) (h1 : (2 : ℚ) ^ k ≤ |x|) (h2 : |x| < 2 ^ (k + 1)) :
    binaryExponent x = k := by
  have hx : x ≠ 0 := by
    intro h
    rw [h, abs_zero] at h1
    exact absurd (two_zpow_pos k) (not_lt.mpr h1)
  obtain ⟨s1, s2⟩ := binaryExponent_spec x hx
  have a : binaryExponent x < k + 1 :=
    (zpow_lt_zpow_iff_right₀ (by norm_num : (1 : ℚ) < 2)).mp (lt_of_le_of_lt s1 h2)
  have b : k < binaryExponent x + 1 :=
    (zpow_lt_zpow_iff_right₀ (by norm_num : (1 : ℚ) < 2)).mp (lt_of_le_of_lt h1 s2)
  omega

theorem roundNearestEven_error (t : ℚ) : |(roundNearestEven t : ℚ) - t| ≤ 1 / 2 := by
  have hf := Int.floor_le t
  have hc := Int.lt_floor_add_one t
  unfold roundNearestEven
  rw [abs_le]
  split
  · constructor <;> linarith
  · split
    · push_cast; constructor <;> linarith
    · rename_i ha hb
      have he : t - ⌊t⌋ = 1 / 2 := le_antisymm (not_lt.mp hb) (not_lt.mp ha)
      split
      · constructor <;> linarith
      · push_cast; constructor <;> linarith

theorem roundNearestEven_intCast (n : ℤ) : roundNearestEven (n : ℚ) = n := by
  unfold roundNearestEven
  rw [Int.floor_intCast, sub_self, if_pos (by norm_num)]

/-- Rounding inside a known binade. -/
theorem roundToPrecision_of_binade (p : Nat) (x : ℚ) (k : ℤ) (h1 : (2 : ℚ) ^ k ≤ |x|)
    (h2 : |x| < 2 ^ (k + 1)) :
    roundToPrecision p x
      = (roundNearestEven (x / 2 ^ (k - ((p : ℤ) - 1))) : ℚ) * 2 ^ (k - ((p : ℤ) - 1)) := by
  have hx : x ≠ 0 := by
    intro h
    rw [h, abs_zero] at h1
    exact absurd (two_zpow_pos k) (not_lt.mpr h1)
  unfold roundToPrecision
  rw [if_neg hx, binaryExponent_eq x k h1 h2]

/-- In the binade of exponent `k`, rounding to `p` bits moves a value by at most half a
unit in the last place. -/
theorem roundToPrecision_error (p : Nat) (x : ℚ) (k : ℤ) (h1 : (2 : ℚ) ^ k ≤ |x|)
    (h2 : |x| < 2 ^ (k + 1)) :
    |roundToPrecision p x - x| ≤ 2 ^ (k - ((p : ℤ) - 1)) / 2 := by
  rw [roundToPrecision_of_binade p x k h1 h2]
  have hu := two_zpow_pos (k - ((p : ℤ) - 1))
  have he := roundNearestEven_error (x / 2 ^ (k - ((p : ℤ) - 1)))
  have hd : (roundNearestEven (x / 2 ^ (k - ((p : ℤ) - 1))) : ℚ) * 2 ^ (k - ((p : ℤ) - 1)) - x
      = ((roundNearestEven (x / 2 ^ (k - ((p : ℤ) - 1))) : ℚ) - x / 2 ^ (k - ((p : ℤ) - 1)))
        * 2 ^ (k - ((p : ℤ) - 1)) := by
    rw [sub_mul, div_mul_cancel₀ x (ne_of_gt hu)]
  rw [hd, abs_mul, abs_of_pos hu]
  calc |(roundNearestEven (x / 2 ^ (k - ((p : ℤ) - 1))) : ℚ) - x / 2 ^ (k - ((p : ℤ) - 1))|
        * 2 ^ (k - ((p : ℤ) - 1))
      ≤ 1 / 2 * 2 ^ (k - ((p : ℤ) - 1)) := mul_le_mul_of_nonneg_right he (le_of_lt hu)
    _ = 2 ^ (k - ((p : ℤ) - 1)) / 2 := by ring

theorem zpow_nonneg_int (j : ℤ) (hj : 0 ≤ j) : ((2 : ℚ) ^ j) = (((2 : ℤ) ^ j.toNat : ℤ) : ℚ) := by
  obtain ⟨m, rfl⟩ := Int.eq_ofNat_of_zero_le hj
  simp

/-- A value with at most `p` significant bits is not changed by rounding to `p` bits. -/
theorem roundToPrecision_exact (p : Nat) (n j : ℤ) (hn : |(n : ℚ)| < 2 ^ (p : ℤ)) :
    roundToPrecision p ((n : ℚ) * 2 ^ j) = (n : ℚ) * 2 ^ j := by
  by_cases h0 : (n : ℚ) * 2 ^ j = 0
  · unfold roundToPrecision
    rw [if_pos h0, h0]
  · obtain ⟨s1, s2⟩ := binaryExponent_spec _ h0
    unfold roundToPrecision
    rw [if_neg h0]
    have hj := two_zpow_pos j
    -- the exponent is below p + j
    have hlt : |(n : ℚ) * 2 ^ j| < 2 ^ ((p : ℤ) + j) := by
      rw [abs_mul, abs_of_pos hj, zpow_add₀ (by norm_num)]
      exact mul_lt_mul_of_pos_right hn hj
    have he : binaryExponent ((n : ℚ) * 2 ^ j) < (p : ℤ) + j :=
      (zpow_lt_zpow_iff_right₀ (by norm_num : (1 : ℚ) < 2)).mp (lt_of_le_of_lt s1 hlt)
    have hnonneg : 0 ≤ j - (binaryExponent ((n : ℚ) * 2 ^ j) - ((p : ℤ) - 1)) := by omega
    have hquot : (n : ℚ) * 2 ^ j / 2 ^ (binaryExponent ((n : ℚ) * 2 ^ j) - ((p : ℤ) - 1))
        = ((n * (2 : ℤ) ^ (j - (binaryExponent ((n : ℚ) * 2 ^ j) - ((p : ℤ) - 1))).toNat : ℤ) : ℚ) := by
      rw [mul_div_assoc, ← zpow_sub₀ (by norm_num), zpow_nonneg_int _ hnonneg]
      push_cast
      ring
    rw [hquot, roundNearestEven_intCast, ← hquot]
    field_simp

/-- Rounding to `p ≥ 1` bits gives a value with at most `p` significant bits. -/
theorem roundToPrecision_representable (p : Nat) (hp : 1 ≤ p) (x : ℚ) :
    ∃ n j : ℤ, |(n : ℚ)| < 2 ^ (p : ℤ) ∧ roundToPrecision p x = (n : ℚ) * 2 ^ j := by
  by_cases h0 : x = 0
  · refine ⟨0, 0, ?_, ?_⟩
    · simp
    · unfold roundToPrecision
      rw [if_pos h0]
      simp
  · obtain ⟨s1, s2⟩ := binaryExponent_spec x h0
    have hr : roundToPrecision p x
        = (roundNearestEven (x / 2 ^ (binaryExponent x - ((p : ℤ) - 1))) : ℚ)
          * 2 ^ (binaryExponent x - ((p : ℤ) - 1)) := by
      unfold roundToPrecision
      rw [if_neg h0]
    have hu := two_zpow_pos (binaryExponent x - ((p : ℤ) - 1))
    have ht : |x / 2 ^ (binaryExponent x - ((p : ℤ) - 1))| < 2 ^ (p : ℤ) := by
      rw [abs_div, abs_of_pos hu, div_lt_iff₀ hu, ← zpow_add₀ (by norm_num)]
      have : (p : ℤ) + (binaryExponent x - ((p : ℤ) - 1)) = binaryExponent x + 1 := by ring
      rw [this]
      exact s2
    have he := roundNearestEven_error (x / 2 ^ (binaryExponent x - ((p : ℤ) - 1)))
    -- the rounded significand is at most 2^p in magnitude
    have hN : |(roundNearestEven (x / 2 ^ (binaryExponent x - ((p : ℤ) - 1))) : ℚ)|
        < 2 ^ (p : ℤ) + 1 := by
      have := abs_sub_abs_le_abs_sub
        ((roundNearestEven (x / 2 ^ (binaryExponent x - ((p : ℤ) - 1))) : ℚ))
        (x / 2 ^ (binaryExponent x - ((p : ℤ) - 1)))
      linarith
    have hNint : |roundNearestEven (x / 2 ^ (binaryExponent x - ((p : ℤ) - 1)))|
        ≤ (2 : ℤ) ^ p := by
      have h' : ((|roundNearestEven (x / 2 ^ (binaryExponent x - ((p : ℤ) - 1)))| : ℤ) : ℚ)
          < (((2 : ℤ) ^ p + 1 : ℤ) : ℚ) := by
        push_cast
        rw [zpow_natCast] at hN
        exact hN
      have := Int.cast_lt.mp h'
      omega
    rcases lt_or_eq_of_le hNint with hlt | heq
    · refine ⟨_, _, ?_, hr⟩
      rw [← Int.cast_abs, zpow_natCast]
      exact_mod_cast hlt
    · -- the significand is ±2^p: renormalise
      obtain ⟨q, rfl⟩ : ∃ q, p = q + 1 := ⟨p - 1, by omega⟩
      rcases abs_eq (by positivity : (0 : ℤ) ≤ 2 ^ (q + 1)) |>.mp heq with h | h
      · refine ⟨2 ^ q, binaryExponent x - (((q + 1 : ℕ) : ℤ) - 1) + 1, ?_, ?_⟩
        · push_cast
          rw [abs_of_pos (by positivity), zpow_add₀ (by norm_num), zpow_natCast, zpow_one]
          have := pow_pos (by norm_num : (0 : ℚ) < 2) q
          linarith
        · rw [hr, h, zpow_add₀ (by norm_num)]
          push_cast
          ring
      · refine ⟨-2 ^ q, binaryExponent x - (((q + 1 : ℕ) : ℤ) - 1) + 1, ?_, ?_⟩
        · push_cast
          rw [abs_neg, abs_of_pos (by positivity), zpow_add₀ (by norm_num), zpow_natCast, zpow_one]
          have := pow_pos (by norm_num : (0 : ℚ) < 2) q
          linarith
        · rw [hr, h, zpow_add₀ (by norm_num)]
          push_cast
          ring

/-- Rounding twice is rounding once. -/
theorem roundToPrecision_idem (p : Nat) (hp : 1 ≤ p) (x : ℚ) :
    roundToPrecision p (roundToPrecision p x) = roundToPrecision p x := by
  obtain ⟨n, j, hn, hx⟩ := roundToPrecision_representable p hp x
  rw [hx, roundToPrecision_exact p n j hn]

/-- A rounded value scaled by a power of two needs no further rounding. -/
theorem roundToPrecision_scaled (p : Nat) (hp : 1 ≤ p) (x : ℚ) (i : ℤ) :
    roundToPrecision p (roundToPrecision p x * 2 ^ i) = roundToPrecision p x * 2 ^ i := by
  obtain ⟨n, j, hn, hx⟩ := roundToPrecision_representable p hp x
  rw [hx, mul_assoc, ← zpow_add₀ (by norm_num), roundToPrecision_exact p n (j + i) hn]

/-! ## The PLL word in single precision -/

/-- Of the four single-precision operations of `setFrequency` only the product
`frequency * 1000000` and the sum with `±225000` can round: the factor 4 and the divisor
32768 are powers of two. -/
theorem frequencyW_eq (hi : Byte) (f : ℚ) :
    frequencyW hi f
      = toUnsigned (toFloat (toFloat (f * 1000000)
          + (if hi.val ≠ 0 then 225000 else -225000)) / 8192) := by
  have key : ∀ z : ℚ, toFloat (toFloat (4 * toFloat z) / 32768) = toFloat z / 8192 := by
    intro z
    have h1 : 4 * toFloat z = roundToPrecision 24 z * 2 ^ (2 : ℤ) := by
      unfold toFloat
      norm_num
      ring
    have h2 : roundToPrecision 24 z * 2 ^ (2 : ℤ) / 32768
        = roundToPrecision 24 z * 2 ^ (-13 : ℤ) := by
      norm_num
      ring
    have h3 : roundToPrecision 24 z * 2 ^ (-13 : ℤ) = toFloat z / 8192 := by
      unfold toFloat
      norm_num
      ring
    rw [h1]
    unfold toFloat
    rw [roundToPrecision_scaled 24 (by norm_num) z 2, h2,
      roundToPrecision_scaled 24 (by norm_num) z (-13)]
    exact h3
  unfold frequencyW
  split
  · rw [key]
  · rw [key, sub_eq_add_neg]

/-- Between 2^26 and 2^27 a `float` is a multiple of 8. -/
theorem toFloat_band (x : ℚ) (h1 : 2 ^ 26 ≤ x) (h2 : x < 2 ^ 27) :
    toFloat x = (roundNearestEven (x / 8) : ℚ) * 8 := by
  have hpos : 0 < x := lt_of_lt_of_le (by norm_num) h1
  have h := roundToPrecision_of_binade 24 x 26 (by rw [abs_of_pos hpos]; exact_mod_cast h1)
    (by rw [abs_of_pos hpos]; exact_mod_cast h2)
  unfold toFloat
  rw [h]
  norm_num

theorem roundNearestEven_floor (t : ℚ) :
    roundNearestEven t = ⌊t⌋ ∨ roundNearestEven t = ⌊t⌋ + 1 := by
  unfold roundNearestEven
  split
  · exact Or.inl rfl
  · split
    · exact Or.inr rfl
    · split
      · exact Or.inl rfl
      · exact Or.inr rfl

/-- In the binade of the FM bands the PLL word is the integer quotient by 1024 of the
frequency in units of 8 Hz, rounded to the nearest unit, plus or minus 225000 / 8. -/
theorem frequencyW_band (hi : Byte) (f : ℚ) (h1 : 67.2 ≤ f) (h2 : f ≤ 133.9) :
    (frequencyW hi f : ℤ)
      = (roundNearestEven (f * 1000000 / 8) + (if hi.val ≠ 0 then 28125 else -28125)) / 1024 ∧
    0 ≤ roundNearestEven (f * 1000000 / 8) + (if hi.val ≠ 0 then 28125 else -28125) ∧
    roundNearestEven (f * 1000000 / 8) + (if hi.val ≠ 0 then 28125 else -28125) < 2 ^ 24 := by
  have hF1 : (2 : ℚ) ^ 26 ≤ f * 1000000 := by norm_num at h1 ⊢; linarith
  have hF2 : f * 1000000 < (2 : ℚ) ^ 27 := by norm_num at h2 ⊢; linarith
  have he := roundNearestEven_error (f * 1000000 / 8)
  rw [abs_le] at he
  -- bounds on the rounded significand
  have hNlo : (8400000 : ℤ) ≤ roundNearestEven (f * 1000000 / 8) := by
    have : ((8400000 : ℤ) : ℚ) - 1 < (roundNearestEven (f * 1000000 / 8) : ℚ) := by
      norm_num at h1 ⊢
      linarith
    have h' : ((8400000 - 1 : ℤ) : ℚ) < (roundNearestEven (f * 1000000 / 8) : ℚ) := by
      push_cast; linarith
    have := Int.cast_lt.mp h'
    omega
  have hNhi : roundNearestEven (f * 1000000 / 8) ≤ (16737500 : ℤ) := by
    have h' : (roundNearestEven (f * 1000000 / 8) : ℚ) < ((16737500 + 1 : ℤ) : ℚ) := by
      push_cast
      norm_num at h2 ⊢
      linarith
    have := Int.cast_lt.mp h'
    omega
  have hm0 : 0 ≤ roundNearestEven (f * 1000000 / 8) + (if hi.val ≠ 0 then 28125 else -28125) := by
    split <;> omega
  have hm1 : roundNearestEven (f * 1000000 / 8) + (if hi.val ≠ 0 then 28125 else -28125)
      < 2 ^ 24 := by
    split <;> omega
  refine ⟨?_, hm0, hm1⟩
  rw [frequencyW_eq, toFloat_band _ hF1 hF2]
  have hsum : (roundNearestEven (f * 1000000 / 8) : ℚ) * 8
        + (if hi.val ≠ 0 then (225000 : ℚ) else -225000)
      = ((roundNearestEven (f * 1000000 / 8)
          + (if hi.val ≠ 0 then 28125 else -28125) : ℤ) : ℚ) * 2 ^ (3 : ℤ) := by
    split <;> (push_cast; norm_num; ring)
  rw [hsum]
  unfold toFloat
  rw [roundToPrecision_exact 24 _ 3 (by
    rw [← Int.cast_abs, abs_of_nonneg hm0]
    exact_mod_cast hm1)]
  have hq : ((roundNearestEven (f * 1000000 / 8)
      + (if hi.val ≠ 0 then 28125 else -28125) : ℤ) : ℚ) * 2 ^ (3 : ℤ) / 8192
      = ((roundNearestEven (f * 1000000 / 8)
      + (if hi.val ≠ 0 then 28125 else -28125) : ℤ) : ℚ) / ((1024 : ℕ) : ℚ) := by
    norm_num
    ring
  rw [hq]
  unfold toUnsigned
  rw [Rat.floor_intCast_div_natCast]
  exact Int.toNat_of_nonneg (Int.ediv_nonneg hm0 (by norm_num))

theorem floor_div_1024 (x : ℚ) : ⌊x / 1024⌋ = ⌊x⌋ / 1024 := by
  have h1 := Int.floor_le x
  have h2 := Int.lt_floor_add_one x
  have hd := Int.ediv_add_emod ⌊x⌋ 1024
  have hr0 := Int.emod_nonneg ⌊x⌋ (by norm_num : (1024 : ℤ) ≠ 0)
  have hr1 := Int.emod_lt_of_pos ⌊x⌋ (by norm_num : (0 : ℤ) < 1024)
  have a : (1024 * (⌊x⌋ / 1024) : ℤ) ≤ ⌊x⌋ := by omega
  have b : ⌊x⌋ + 1 ≤ (1024 * (⌊x⌋ / 1024) + 1024 : ℤ) := by omega
  have aq : ((1024 * (⌊x⌋ / 1024) : ℤ) : ℚ) ≤ (⌊x⌋ : ℚ) := by exact_mod_cast a
  have bq : ((⌊x⌋ + 1 : ℤ) : ℚ) ≤ ((1024 * (⌊x⌋ / 1024) + 1024 : ℤ) : ℚ) := by exact_mod_cast b
  push_cast at aq bq
  rw [Int.floor_eq_iff]
  constructor
  · rw [le_div_iff₀ (by norm_num)]
    linarith
  · rw [div_lt_iff₀ (by norm_num)]
    linarith

/-- The word against the exact quotient `4 * (f * 10^6 ± 225000) / 32768`. -/
theorem frequencyW_near_floor (hi : Byte) (f : ℚ) (h1 : 67.2 ≤ f) (h2 : f ≤ 133.9) :
    (frequencyW hi f : ℤ)
        = ⌊4 * ((f * 1000000) + (if hi.val ≠ 0 then 225000 else -225000)) / 32768⌋ ∨
    (frequencyW hi f : ℤ)
        = ⌊4 * ((f * 1000000) + (if hi.val ≠ 0 then 225000 else -225000)) / 32768⌋ + 1 := by
  have hq : 4 * ((f * 1000000) + (if hi.val ≠ 0 then (225000 : ℚ) else -225000)) / 32768
      = (f * 1000000 / 8 + ((if hi.val ≠ 0 then 28125 else -28125 : ℤ) : ℚ)) / 1024 := by
    split <;> (push_cast; ring)
  rw [hq, floor_div_1024, Int.floor_add_int, (frequencyW_band hi f h1 h2).1]
  rcases roundNearestEven_floor (f * 1000000 / 8) with h | h <;> rw [h] <;> omega

/-- C5 as stated fails: for 100.0 MHz with low-side injection every operation of
`setFrequency` is exact in single precision, the quotient is 12179.56..., the nearest
integer is 12180, and `setFrequency` computes 12179. -/
theorem frequencyW_is_not_rounded :
    toFloat (100 * 1000000) = 100 * 1000000 ∧
    toFloat (100 * 1000000 - 225000) = 100 * 1000000 - 225000 ∧
    frequencyW 0 100 = 12179 ∧
    round (4 * (((100 : ℚ) * 1000000) - 225000) / 32768) = 12180 ∧
    (frequencyW 0 100 : ℤ) ≠ round (4 * (((100 : ℚ) * 1000000) - 225000) / 32768) := by
  decide!

/-- C5, amended.  For every frequency `f` (MHz) and injection side the PLL word
`setFrequency` computes is the integer part of the quotient as single precision forms it,
`(fl (fl (f * 10^6) ± 225000)) / 8192` with `fl` rounding to the nearest `float`, whenever
that quotient is non-negative and below `2^16`.  For `f` from 67.2 to 133.9 MHz, which
contains the FM bands, `fl (f * 10^6)` is `f * 10^6` rounded to the nearest multiple of 8,
the sum is exact, and the word is the integer part of the exact quotient
`4 * (f * 10^6 ± 225000) / 32768` or one more. -/
theorem frequencyW_is_truncated (hi : Byte) (f : ℚ) :
    (0 ≤ toFloat (toFloat (f * 1000000) + (if hi.val ≠ 0 then 225000 else -225000)) / 8192 →
      toFloat (toFloat (f * 1000000) + (if hi.val ≠ 0 then 225000 else -225000)) / 8192 < 2 ^ 16 →
      (frequencyW hi f : ℤ)
        = ⌊toFloat (toFloat (f * 1000000) + (if hi.val ≠ 0 then 225000 else -225000)) / 8192⌋) ∧
    (67.2 ≤ f → f ≤ 133.9 →
      toFloat (f * 1000000) = 8 * (roundNearestEven (f * 1000000 / 8) : ℚ) ∧
      toFloat (toFloat (f * 1000000) + (if hi.val ≠ 0 then 225000 else -225000))
        = 8 * (roundNearestEven (f * 1000000 / 8) : ℚ)
          + (if hi.val ≠ 0 then 225000 else -225000) ∧
      ((frequencyW hi f : ℤ)
          = ⌊4 * ((f * 1000000) + (if hi.val ≠ 0 then 225000 else -225000)) / 32768⌋ ∨
        (frequencyW hi f : ℤ)
          = ⌊4 * ((f * 1000000) + (if hi.val ≠ 0 then 225000 else -225000)) / 32768⌋ + 1)) := by
  constructor
  · intro h0 _
    rw [frequencyW_eq]
    exact Int.toNat_of_nonneg (Int.floor_nonneg.mpr h0)
  · intro h1 h2
    have hF1 : (2 : ℚ) ^ 26 ≤ f * 1000000 := by norm_num at h1 ⊢; linarith
    have hF2 : f * 1000000 < (2 : ℚ) ^ 27 := by norm_num at h2 ⊢; linarith
    have hb := frequencyW_band hi f h1 h2
    have hfl : toFloat (f * 1000000) = 8 * (roundNearestEven (f * 1000000 / 8) : ℚ) := by
      rw [toFloat_band _ hF1 hF2]
      ring
    refine ⟨hfl, ?_, frequencyW_near_floor hi f h1 h2⟩
    rw [hfl]
    have hsum : 8 * (roundNearestEven (f * 1000000 / 8) : ℚ)
          + (if hi.val ≠ 0 then (225000 : ℚ) else -225000)
        = ((roundNearestEven (f * 1000000 / 8)
            + (if hi.val ≠ 0 then 28125 else -28125) : ℤ) : ℚ) * 2 ^ (3 : ℤ) := by
      split <;> (push_cast; norm_num; ring)
    rw [hsum]
    unfold toFloat
    exact roundToPrecision_exact 24 _ 3 (by
      rw [← Int.cast_abs, abs_of_nonneg hb.2.1]
      exact_mod_cast hb.2.2)

/-- Witness of C5 amended: the `float` nearest to 87.9 MHz, low side, gives the integer
part of the exact quotient; 92.84375 MHz, low side, gives one more. -/
theorem frequencyW_is_truncated_witness :
    ((frequencyW 0 (11521229 / 131072) : ℤ)
        = ⌊4 * (((11521229 / 131072 : ℚ) * 1000000)
            + (if (0 : Byte).val ≠ 0 then 225000 else -225000)) / 32768⌋ ∨
      (frequencyW 0 (11521229 / 131072) : ℤ)
        = ⌊4 * (((11521229 / 131072 : ℚ) * 1000000)
            + (if (0 : Byte).val ≠ 0 then 225000 else -225000)) / 32768⌋ + 1) ∧
    (frequencyW 0 92.84375 : ℤ)
      = ⌊toFloat (toFloat (92.84375 * 1000000)
          + (if (0 : Byte).val ≠ 0 then 225000 else -225000)) / 8192⌋ :=
  ⟨((frequencyW_is_truncated 0 (11521229 / 131072)).2 (by norm_num) (by norm_num)).2.2,
   (frequencyW_is_truncated 0 92.84375).1 (by decide!) (by decide!)⟩

/-! ## Decoding the PLL word -/

/-- A value between 65 and 127 returned through a `double` and a `float`. -/
theorem toFloat_toDouble_near (D : ℚ) (h1 : 65 ≤ D) (h2 : D ≤ 127) :
    |toFloat (toDouble D) - D| ≤ 2 ^ (-18 : ℤ) + 2 ^ (-47 : ℤ) := by
  have r1 := roundToPrecision_error 53 D 6
    (by rw [abs_of_pos (by linarith)]; norm_num; linarith)
    (by rw [abs_of_pos (by linarith)]; norm_num; linarith)
  have r1' : |toDouble D - D| ≤ 2 ^ (-47 : ℤ) := by
    have : (2 : ℚ) ^ ((6 : ℤ) - (((53 : ℕ) : ℤ) - 1)) / 2 = 2 ^ (-47 : ℤ) := by norm_num
    rw [← this]
    exact r1
  have hsmall : (2 : ℚ) ^ (-47 : ℤ) ≤ 1 / 2 := by norm_num
  have hE := abs_le.mp (le_trans r1' hsmall)
  have hlo : 64 < toDouble D := by linarith [hE.1]
  have hhi : toDouble D < 128 := by linarith [hE.2]
  have r2 := roundToPrecision_error 24 (toDouble D) 6
    (by rw [abs_of_pos (by linarith)]; norm_num; linarith)
    (by rw [abs_of_pos (by linarith)]; norm_num; linarith)
  have r2' : |toFloat (toDouble D) - toDouble D| ≤ 2 ^ (-18 : ℤ) := by
    have : (2 : ℚ) ^ ((6 : ℤ) - (((24 : ℕ) : ℤ) - 1)) / 2 = 2 ^ (-18 : ℤ) := by norm_num
    rw [← this]
    exact r2
  calc |toFloat (toDouble D) - D|
      ≤ |toFloat (toDouble D) - toDouble D| + |toDouble D - D| := abs_sub_le _ _ _
    _ ≤ 2 ^ (-18 : ℤ) + 2 ^ (-47 : ℤ) := add_le_add r2' r1'

/-- Decoding a word: the four double-precision operations up to the division are exact, the
division and the return as a `float` each move the value by at most half a unit in the
last place. -/
theorem getFrequencyInMHz_near (s : TEA5767N) (w : Nat) (c : ℤ)
    (hc : c = if s.hiInjection.val ≠ 0 then -225000 else 225000)
    (h1 : (65000000 : ℤ) ≤ (w : ℤ) * 8192 + c) (h2 : (w : ℤ) * 8192 + c ≤ 127000000) :
    |s.getFrequencyInMHz w - (((w : ℤ) * 8192 + c : ℤ) : ℚ) / 1000000|
      ≤ 2 ^ (-18 : ℤ) + 2 ^ (-47 : ℤ) := by
  have hw : (w : ℤ) < 20000 := by
    have : c ≤ 225000 ∧ -225000 ≤ c := by rw [hc]; split <;> omega
    omega
  have hwq : |((w : ℤ) : ℚ)| < 2 ^ ((53 : ℕ) : ℤ) := by
    rw [← Int.cast_abs, abs_of_nonneg (Int.natCast_nonneg w)]
    have : ((w : ℤ) : ℚ) < ((20000 : ℤ) : ℚ) := Int.cast_lt.mpr hw
    norm_num at this ⊢
    linarith
  -- the exact part
  have e1 : toDouble ((w : ℚ) / 4.0) = ((w : ℤ) : ℚ) * 2 ^ (-2 : ℤ) := by
    have : (w : ℚ) / 4.0 = ((w : ℤ) : ℚ) * 2 ^ (-2 : ℤ) := by
      push_cast; norm_num; ring
    rw [this]
    exact roundToPrecision_exact 53 _ _ hwq
  have e2 : toDouble (((w : ℤ) : ℚ) * 2 ^ (-2 : ℤ) * 32768.0) = ((w : ℤ) : ℚ) * 2 ^ (13 : ℤ) := by
    have : ((w : ℤ) : ℚ) * 2 ^ (-2 : ℤ) * 32768.0 = ((w : ℤ) : ℚ) * 2 ^ (13 : ℤ) := by
      norm_num; ring
    rw [this]
    exact roundToPrecision_exact 53 _ _ hwq
  have hnq : |(((w : ℤ) * 8192 + c : ℤ) : ℚ)| < 2 ^ ((53 : ℕ) : ℤ) := by
    rw [← Int.cast_abs, abs_of_nonneg (by omega)]
    have : (((w : ℤ) * 8192 + c : ℤ) : ℚ) ≤ ((127000000 : ℤ) : ℚ) := Int.cast_le.mpr h2
    norm_num at this ⊢
    linarith
  have e3 : toDouble (((w : ℤ) : ℚ) * 2 ^ (13 : ℤ)
        + (if s.hiInjection.val ≠ 0 then (-225000 : ℚ) else 225000))
      = (((w : ℤ) * 8192 + c : ℤ) : ℚ) := by
    have : ((w : ℤ) : ℚ) * 2 ^ (13 : ℤ)
          + (if s.hiInjection.val ≠ 0 then (-225000 : ℚ) else 225000)
        = (((w : ℤ) * 8192 + c : ℤ) : ℚ) * 2 ^ (0 : ℤ) := by
      rw [hc]
      split <;> (push_cast; norm_num)
    rw [this]
    have h := roundToPrecision_exact 53 ((w : ℤ) * 8192 + c) 0 hnq
    unfold toDouble
    rw [h]
    norm_num
  have hshape : s.getFrequencyInMHz w
      = toFloat (toDouble ((((w : ℤ) * 8192 + c : ℤ) : ℚ) / 1000000)) := by
    unfold getFrequencyInMHz
    split
    · rename_i h
      rw [if_pos h] at e3
      rw [e1, e2, sub_eq_add_neg]
      have : (-(225000.0 : ℚ)) = -225000 := by norm_num
      rw [this, e3]
      norm_num
    · rename_i h
      rw [if_neg h] at e3
      rw [e1, e2]
      have : ((225000.0 : ℚ)) = 225000 := by norm_num
      rw [this, e3]
      norm_num
  rw [hshape]
  -- the two roundings
  have hD1 : (65 : ℚ) ≤ (((w : ℤ) * 8192 + c : ℤ) : ℚ) / 1000000 := by
    rw [le_div_iff₀ (by norm_num)]
    have : ((65000000 : ℤ) : ℚ) ≤ (((w : ℤ) * 8192 + c : ℤ) : ℚ) := Int.cast_le.mpr h1
    norm_num at this ⊢
    linarith
  have hD2 : (((w : ℤ) * 8192 + c : ℤ) : ℚ) / 1000000 ≤ 127 := by
    rw [div_le_iff₀ (by norm_num)]
    have : (((w : ℤ) * 8192 + c : ℤ) : ℚ) ≤ ((127000000 : ℤ) : ℚ) := Int.cast_le.mpr h2
    norm_num at this ⊢
    linarith
  exact toFloat_toDouble_near _ hD1 hD2

/-- The frequency a word of `setFrequency` stands for, `(8192 w ∓ 225000) / 10^6` MHz, is
at most 4 Hz above `f` and at most 8188 Hz below it. -/
theorem frequencyW_stands_for (hi : Byte) (f : ℚ) (hlo : 87 ≤ f) (hhi : f ≤ 108) :
    (86991816 : ℤ) ≤ (frequencyW hi f : ℤ) * 8192 + (if hi.val ≠ 0 then -225000 else 225000) ∧
    (frequencyW hi f : ℤ) * 8192 + (if hi.val ≠ 0 then -225000 else 225000) ≤ 108000000 ∧
    |(((frequencyW hi f : ℤ) * 8192 + (if hi.val ≠ 0 then -225000 else 225000) : ℤ) : ℚ)
        / 1000000 - f| ≤ 8188 / 1000000 := by
  have hb := (frequencyW_band hi f (by norm_num; linarith) (by norm_num; linarith)).1
  have he := abs_le.mp (roundNearestEven_error (f * 1000000 / 8))
  have hNlo : (10875000 : ℤ) ≤ roundNearestEven (f * 1000000 / 8) := by
    have h' : ((10875000 - 1 : ℤ) : ℚ) < (roundNearestEven (f * 1000000 / 8) : ℚ) := by
      push_cast; linarith [he.1]
    have := Int.cast_lt.mp h'
    omega
  have hNhi : roundNearestEven (f * 1000000 / 8) ≤ (13500000 : ℤ) := by
    have h' : (roundNearestEven (f * 1000000 / 8) : ℚ) < ((13500000 + 1 : ℤ) : ℚ) := by
      push_cast; linarith [he.2]
    have := Int.cast_lt.mp h'
    omega
  have key : 8 * roundNearestEven (f * 1000000 / 8) - 8184
        ≤ (frequencyW hi f : ℤ) * 8192 + (if hi.val ≠ 0 then -225000 else 225000) ∧
      (frequencyW hi f : ℤ) * 8192 + (if hi.val ≠ 0 then -225000 else 225000)
        ≤ 8 * roundNearestEven (f * 1000000 / 8) := by
    rw [hb]
    split <;> omega
  refine ⟨by omega, by omega, ?_⟩
  have k1 : ((8 * roundNearestEven (f * 1000000 / 8) - 8184 : ℤ) : ℚ)
      ≤ (((frequencyW hi f : ℤ) * 8192 + (if hi.val ≠ 0 then -225000 else 225000) : ℤ) : ℚ) :=
    Int.cast_le.mpr key.1
  have k2 : (((frequencyW hi f : ℤ) * 8192 + (if hi.val ≠ 0 then -225000 else 225000) : ℤ) : ℚ)
      ≤ ((8 * roundNearestEven (f * 1000000 / 8) : ℤ) : ℚ) := Int.cast_le.mpr key.2
  push_cast at k1 k2
  rw [abs_le]
  constructor
  · rw [le_sub_iff_add_le, le_div_iff₀ (by norm_num)]
    push_cast
    linarith [he.1]
  · rw [sub_le_iff_le_add, div_le_iff₀ (by norm_num)]
    push_cast
    linarith [he.2]

/-- C4. Frequency round trip: for `87.0 ≤ f ≤ 108.0` (MHz) and either injection side,
decoding with `getFrequencyInMHz` the PLL word `setFrequency` computes for `f` under the
same side gives a frequency within one PLL step (8192 Hz = 0.008192 MHz) of `f`, with the
single-precision and double-precision roundings of both computations counted in. -/
theorem frequency_round_trip (s : TEA5767N) (f : ℚ) (hlo : 87 ≤ f) (hhi : f ≤ 108) :
    |s.getFrequencyInMHz (frequencyW s.hiInjection f) - f| ≤ 8192 / 1000000 := by
  obtain ⟨h1, h2, h3⟩ := frequencyW_stands_for s.hiInjection f hlo hhi
  have hd := getFrequencyInMHz_near s (frequencyW s.hiInjection f)
    (if s.hiInjection.val ≠ 0 then -225000 else 225000) rfl (by omega) (by omega)
  have hsum : (2 : ℚ) ^ (-18 : ℤ) + 2 ^ (-47 : ℤ) + 8188 / 1000000 ≤ 8192 / 1000000 := by
    norm_num
  calc |s.getFrequencyInMHz (frequencyW s.hiInjection f) - f|
      ≤ |s.getFrequencyInMHz (frequencyW s.hiInjection f)
          - (((frequencyW s.hiInjection f : ℤ) * 8192
              + (if s.hiInjection.val ≠ 0 then -225000 else 225000) : ℤ) : ℚ) / 1000000|
        + |(((frequencyW s.hiInjection f : ℤ) * 8192
              + (if s.hiInjection.val ≠ 0 then -225000 else 225000) : ℤ) : ℚ) / 1000000 - f| :=
        abs_sub_le _ _ _
    _ ≤ (2 ^ (-18 : ℤ) + 2 ^ (-47 : ℤ)) + 8188 / 1000000 := add_le_add hd h3
    _ ≤ 8192 / 1000000 := hsum

/-- Witness of C4: 92.84375 MHz on a fresh driver (low side), where single precision
carries the word one above the integer part of the exact quotient. -/
theorem frequency_round_trip_witness :
    |fresh.getFrequencyInMHz (frequencyW fresh.hiInjection 92.84375) - 92.84375|
      ≤ 8192 / 1000000 :=
  frequency_round_trip fresh 92.84375 (by norm_num) (by norm_num)

/-! ## Writing the PLL word back -/

theorem keep_top_two (b : Byte) (x : Nat) (hx : x < 64) :
    (toByte ((b.val &&& 0xC0) ||| x)).val &&& 0xC0 = b.val &&& 0xC0 := by
  revert b
  have h : ∀ y : Fin 64, ∀ b : Byte,
      (toByte ((b.val &&& 0xC0) ||| y.val)).val &&& 0xC0 = b.val &&& 0xC0 := by decide!
  exact fun b => h ⟨x, hx⟩ b

theorem take_low_six (b : Byte) (x : Nat) (hx : x < 64) :
    (toByte ((b.val &&& 0xC0) ||| x)).val &&& 0x3F = x := by
  revert b
  have h : ∀ y : Fin 64, ∀ b : Byte,
      (toByte ((b.val &&& 0xC0) ||| y.val)).val &&& 0x3F = y.val := by decide!
  exact fun b => h ⟨x, hx⟩ b

theorem high_six_of_word (w : Nat) : (w >>> 8) &&& 0x3F = w / 256 % 64 := by
  rw [Nat.shiftRight_eq_div_pow, show (0x3F : Nat) = 2 ^ 6 - 1 from rfl,
    Nat.and_pow_two_sub_one_eq_mod]

theorem low_eight_of_word (w : Nat) : (toByte (w &&& 0xFF)).val = w % 256 := by
  rw [toByte_val, show (0xFF : Nat) = 2 ^ 8 - 1 from rfl, Nat.and_pow_two_sub_one_eq_mod]
  norm_num

theorem side_bit_only (b : Byte) (c : Bool) :
    (if c then toByte (b.val ||| 0b00010000) else toByte (b.val &&& 0b11101111)).val &&& 0xEF
      = b.val &&& 0xEF := by
  revert b c
  decide!

/-- C6. The write-back of `setFrequency` stores the low 14 bits of the PLL word `w` it
computed and nothing else: bits 7:6 of the first byte are unchanged, bits 5:0 of the first
byte are bits 13:8 of `w`, the second byte is bits 7:0 of `w`, so the word reassembled as
`(byte0 & 0x3F) * 256 + byte1` is `w mod 16384`; the fourth and fifth bytes are unchanged
and in the third byte only bit 4 (injection side) may differ. -/
theorem setFrequency_write_back (s : TEA5767N) (f : ℚ) :
    (s.setFrequency f).transmission_data.FIRST_DATA.val &&& 0xC0
      = s.transmission_data.FIRST_DATA.val &&& 0xC0 ∧
    (s.setFrequency f).transmission_data.FIRST_DATA.val &&& 0x3F
      = TEA5767N.frequencyW s.hiInjection f / 256 % 64 ∧
    (s.setFrequency f).transmission_data.SECOND_DATA.val
      = TEA5767N.frequencyW s.hiInjection f % 256 ∧
    ((s.setFrequency f).transmission_data.FIRST_DATA.val &&& 0x3F) * 256
        + (s.setFrequency f).transmission_data.SECOND_DATA.val
      = TEA5767N.frequencyW s.hiInjection f % 16384 ∧
    (s.setFrequency f).transmission_data.THIRD_DATA.val &&& 0xEF
      = s.transmission_data.THIRD_DATA.val &&& 0xEF ∧
    (s.setFrequency f).transmission_data.FOURTH_DATA = s.transmission_data.FOURTH_DATA ∧
    (s.setFrequency f).transmission_data.FIFTH_DATA = s.transmission_data.FIFTH_DATA := by
  have hlt : (TEA5767N.frequencyW s.hiInjection f >>> 8) &&& 0x3F < 64 := by
    rw [high_six_of_word]
    exact Nat.mod_lt _ (by decide)
  have e1 : (s.setFrequency f).transmission_data.FIRST_DATA
      = toByte ((s.transmission_data.FIRST_DATA.val &&& 0xC0)
          ||| ((TEA5767N.frequencyW s.hiInjection f >>> 8) &&& 0x3F)) := by
    simp only [TEA5767N.setFrequency]
    split <;> rfl
  have e2 : (s.setFrequency f).transmission_data.SECOND_DATA
      = toByte (TEA5767N.frequencyW s.hiInjection f &&& 0xFF) := rfl
  have e3 : (s.setFrequency f).transmission_data.THIRD_DATA
      = if s.hiInjection.val ≠ 0 then toByte (s.transmission_data.THIRD_DATA.val ||| 0b00010000)
        else toByte (s.transmission_data.THIRD_DATA.val &&& 0b11101111) := by
    simp only [TEA5767N.setFrequency]
    split <;> rfl
  have h2 := take_low_six s.transmission_data.FIRST_DATA _ hlt
  refine ⟨?_, ?_, ?_, ?_, ?_, ?_, ?_⟩
  · rw [e1]
    exact keep_top_two _ _ hlt
  · rw [e1, h2, high_six_of_word]
  · rw [e2, low_eight_of_word]
  · rw [e1, e2, h2, high_six_of_word, low_eight_of_word]
    omega
  · rw [e3]
    have h := side_bit_only s.transmission_data.THIRD_DATA (decide (s.hiInjection.val ≠ 0))
    simpa using h
  · simp only [TEA5767N.setFrequency]
    split <;> rfl
  · simp only [TEA5767N.setFrequency]
    split <;> rfl


/-! ## What the operations leave alone -/

theorem readStatus_congr (s t : TEA5767N) (hr : s.reception_data = t.reception_data)
    (hi : s.Wire.incoming = t.Wire.incoming) :
    s.readStatus.reception_data = t.readStatus.reception_data ∧
    s.readStatus.Wire.incoming = t.readStatus.Wire.incoming := by
  simp only [readStatus, hi]
  split <;> simp [hr]

theorem setFrequency_input (s : TEA5767N) (f : ℚ) :
    (s.setFrequency f).reception_data = s.reception_data ∧
    (s.setFrequency f).Wire = s.Wire ∧
    (s.setFrequency f).hiInjection = s.hiInjection := by
  simp only [setFrequency]
  split <;> exact ⟨rfl, rfl, rfl⟩

theorem level_val (b : Byte) : (toByte (b.val >>> 4)).val = b.val >>> 4 := by
  revert b
  decide!

theorem probe_input (s : TEA5767N) (f : ℚ) :
    (s.setFrequency f).transmitData.reception_data = s.reception_data ∧
    (s.setFrequency f).transmitData.Wire.incoming = s.Wire.incoming :=
  ⟨(setFrequency_input s f).1,
    (show (s.setFrequency f).transmitData.Wire.incoming = (s.setFrequency f).Wire.incoming from rfl).trans
      (congrArg TwoWire.incoming (setFrequency_input s f).2.1)⟩

/-- The status images the two probes of `calculateOptimalLOInjection` read are the ones
the next two status reads deliver. -/
theorem probes_input (s : TEA5767N) (f g : ℚ) :
    (((s.setHighSideLOInjection.setFrequency f).getSignalLevel).1.reception_data
        = s.readStatus.reception_data) ∧
    ((((((s.setHighSideLOInjection.setFrequency f).getSignalLevel).1.setLowSideLOInjection).setFrequency
        g).getSignalLevel).1.reception_data = s.readStatus.readStatus.reception_data) := by
  have h1 := readStatus_congr (s.setHighSideLOInjection.setFrequency f).transmitData s
    (probe_input _ f).1 (probe_input _ f).2
  refine ⟨h1.1, ?_⟩
  have h2 := readStatus_congr
    ((((s.setHighSideLOInjection.setFrequency f).getSignalLevel).1.setLowSideLOInjection).setFrequency
        g).transmitData s.readStatus
    ((probe_input _ g).1.trans h1.1) ((probe_input _ g).2.trans h1.2)
  exact h2.1

theorem calculateOptimalLOInjection_hiInjection (s : TEA5767N) (f : ℚ) :
    (s.calculateOptimalLOInjection f).hiInjection
      = if s.readStatus.reception_data.FOURTH_DATA.val >>> 4
          < s.readStatus.readStatus.reception_data.FOURTH_DATA.val >>> 4
        then toByte 1 else toByte 0 := by
  have h := probes_input s (toFloat (toDouble (f + toDouble 0.45)))
    (toFloat (toDouble (f - toDouble 0.45)))
  simp only [calculateOptimalLOInjection]
  simp only [getSignalLevel, level_val] at h ⊢
  rw [h.1, h.2]

theorem side_bit_set (b : Byte) : (toByte (b.val ||| 0b00010000)).val.testBit 4 = true := by
  revert b
  decide!

theorem side_bit_clear (b : Byte) : (toByte (b.val &&& 0b11101111)).val.testBit 4 = false := by
  revert b
  decide!

/-- After `setFrequency` the injection-side bit says whether `hiInjection` is non-zero. -/
theorem setFrequency_side_bit (s : TEA5767N) (f : ℚ) :
    (s.setFrequency f).transmission_data.THIRD_DATA.val.testBit 4
      = decide (s.hiInjection.val ≠ 0) := by
  simp only [setFrequency]
  split
  · rename_i h
    rw [decide_eq_true h]
    exact side_bit_set _
  · rename_i h
    rw [decide_eq_false h]
    exact side_bit_clear _

theorem mute_first_levels (s : TEA5767N) (m : Bool) :
    (if m then ({ s with muted := false }).toggleMute else s).readStatus.reception_data
      = s.readStatus.reception_data ∧
    (if m then ({ s with muted := false }).toggleMute else s).readStatus.readStatus.reception_data
      = s.readStatus.readStatus.reception_data := by
  cases m
  · exact ⟨rfl, rfl⟩
  · have h1 := readStatus_congr (({ s with muted := false }).toggleMute) s rfl rfl
    have h2 := readStatus_congr _ _ h1.1 h1.2
    exact ⟨h1.1, h2.1⟩

theorem selectFrequency_false (s : TEA5767N) (f : ℚ) :
    s.selectFrequency f false = (s.calculateOptimalLOInjection f).setFrequency f := rfl

theorem selectFrequency_true (s : TEA5767N) (f : ℚ) :
    s.selectFrequency f true
      = (((({ s with muted := false }).toggleMute).calculateOptimalLOInjection f).setFrequency
          f).toggleMute := rfl

theorem toggleMute_keeps (s : TEA5767N) :
    s.toggleMute.hiInjection = s.hiInjection ∧
    s.toggleMute.transmission_data.THIRD_DATA = s.transmission_data.THIRD_DATA :=
  ⟨rfl, rfl⟩

theorem selectFrequency_hiInjection (s : TEA5767N) (f : ℚ) (m : Bool) :
    (s.selectFrequency f m).hiInjection
      = if s.readStatus.reception_data.FOURTH_DATA.val >>> 4
          < s.readStatus.readStatus.reception_data.FOURTH_DATA.val >>> 4
        then toByte 1 else toByte 0 := by
  have hm := mute_first_levels s m
  have hc := calculateOptimalLOInjection_hiInjection
    (if m then ({ s with muted := false }).toggleMute else s) f
  rw [hm.1, hm.2] at hc
  rw [← hc]
  cases m
  · rw [selectFrequency_false]
    exact (setFrequency_input _ f).2.2
  · rw [selectFrequency_true, (toggleMute_keeps _).1]
    exact (setFrequency_input _ f).2.2

theorem selectFrequency_side_bit (s : TEA5767N) (f : ℚ) (m : Bool) :
    (s.selectFrequency f m).transmission_data.THIRD_DATA.val.testBit 4
      = decide ((s.selectFrequency f m).hiInjection.val ≠ 0) := by
  cases m
  · rw [selectFrequency_false, (setFrequency_input _ f).2.2]
    exact setFrequency_side_bit _ f
  · rw [selectFrequency_true, (toggleMute_keeps _).1, (toggleMute_keeps _).2,
      (setFrequency_input _ f).2.2]
    exact setFrequency_side_bit _ f

/-- C7. Let `h` be the 4-bit signal level in the status image after the first probe read
and `l` the one after the second.  `calculateOptimalLOInjection` selects high-side
injection (`hiInjection = 1`) exactly when `h < l` and low side (`hiInjection = 0`)
otherwise, also when `h = l`; and when `selectFrequency` returns, for either value of
`muteDuringUpdate`, the injection-side bit (third byte, bit 4) of the transmission image
is 1 exactly when `h < l`. -/
theorem injection_side_choice (s : TEA5767N) (f : ℚ) (m : Bool) (h l : Nat)
    (hh : s.readStatus.reception_data.FOURTH_DATA.val >>> 4 = h)
    (hl : s.readStatus.readStatus.reception_data.FOURTH_DATA.val >>> 4 = l) :
    ((s.calculateOptimalLOInjection f).hiInjection = (if h < l then 1 else 0)) ∧
    ((s.selectFrequency f m).hiInjection = (if h < l then 1 else 0)) ∧
    ((s.selectFrequency f m).transmission_data.THIRD_DATA.val.testBit 4 = decide (h < l)) := by
  have h1 := calculateOptimalLOInjection_hiInjection s f
  have h2 := selectFrequency_hiInjection s f m
  have h3 := selectFrequency_side_bit s f m
  rw [hh, hl] at h1 h2
  refine ⟨h1, h2, ?_⟩
  rw [h3, h2]
  by_cases hlt : h < l
  · simp only [hlt, if_true]
    decide
  · simp only [hlt, if_false]
    decide

/-- Witness of C7: levels 3 and 7 read back from the two probes select the high side. -/
theorem injection_side_choice_witness :
    ((freshWith [[0, 0, 0, 0x30, 0], [0, 0, 0, 0x70, 0]]).calculateOptimalLOInjection 100).hiInjection
        = (if 3 < 7 then 1 else 0) ∧
    ((freshWith [[0, 0, 0, 0x30, 0], [0, 0, 0, 0x70, 0]]).selectFrequency 100
        true).transmission_data.THIRD_DATA.val.testBit 4 = decide (3 < 7) :=
  ⟨(injection_side_choice (freshWith [[0, 0, 0, 0x30, 0], [0, 0, 0, 0x70, 0]]) 100 true 3 7
      (by decide) (by decide)).1,
   (injection_side_choice (freshWith [[0, 0, 0, 0x30, 0], [0, 0, 0, 0x70, 0]]) 100 true 3 7
      (by decide) (by decide)).2.2⟩

/-! ## Probing and transmitting -/

/-- C8, at the failing input.  On a fresh driver, whose `hiInjection` is 0, both probe
images of `calculateOptimalLOInjection(100.0)` go out with the injection-side bit (third
byte, bit 4) equal to 0 and a PLL word encoded for low-side injection: the first probe
carries `0x2FCA`, the low-side word of 100.45 MHz, where the high-side word is `0x3001`.
After a selection that chose the high side (`hiInjection` = 1) both probes go out with
the side bit 1 and high-side words: the second probe carries `0x2F93`, the high-side word
of 99.55 MHz, where the low-side word is `0x2F5C`.  In both cases `setFrequency` sets the
side again from the member `hiInjection`, which is only updated after the probes. -/
theorem probes_use_previous_side :
    fresh.hiInjection = 0 ∧
    (fresh.calculateOptimalLOInjection 100).Wire.written
      = [(0x60, [0x2F, 0x5C, 0xA0, 0x10, 0x00]), (0x60, [0x2F, 0xCA, 0xA0, 0x10, 0x00])] ∧
    frequencyW 0 (100 + 0.45) = 0x2FCA ∧
    frequencyW 1 (100 + 0.45) = 0x3001 ∧
    ((freshWith [[0, 0, 0, 0x30, 0], [0, 0, 0, 0x70, 0]]).selectFrequency 100 false).hiInjection = 1 ∧
    (((freshWith [[0, 0, 0, 0x30, 0], [0, 0, 0, 0x70, 0]]).selectFrequency 100
        false).calculateOptimalLOInjection 100).Wire.written.take 2
      = [(0x60, [0x2F, 0x93, 0xB0, 0x10, 0x00]), (0x60, [0x30, 0x01, 0xB0, 0x10, 0x00])] ∧
    frequencyW 1 (100 - 0.45) = 0x2F93 ∧
    frequencyW 0 (100 - 0.45) = 0x2F5C := by
  decide!

/-- C9, at the failing input: `selectFrequency(100.0, false)` on a fresh driver whose two
probes read back the levels 3 and 7.  Only the two probe images are written; the last of
them carries the low-side word of 99.55 MHz (`0x2F5C`) and side bit 0, while the
transmission image ends up holding the high-side word of 100.0 MHz (`0x2FCA`) and side
bit 1, which is never transmitted.  The same call with `muteDuringUpdate = true` ends
with the transmission of that image by the closing `toggleMute`. -/
theorem selectFrequency_unmuted_not_transmitted :
    ((freshWith [[0, 0, 0, 0x30, 0], [0, 0, 0, 0x70, 0]]).selectFrequency 100 false).Wire.written
      = [(0x60, [0x2F, 0x5C, 0xA0, 0x10, 0x00]), (0x60, [0x2F, 0xCA, 0xA0, 0x10, 0x00])] ∧
    ((freshWith [[0, 0, 0, 0x30, 0], [0, 0, 0, 0x70, 0]]).selectFrequency 100
        false).transmission_data.toList = [0x2F, 0xCA, 0xB0, 0x10, 0x00] ∧
    ((freshWith [[0, 0, 0, 0x30, 0], [0, 0, 0, 0x70, 0]]).selectFrequency 100 false).hiInjection = 1 ∧
    frequencyW 1 100 = 0x2FCA ∧
    ((freshWith [[0, 0, 0, 0x30, 0], [0, 0, 0, 0x70, 0]]).selectFrequency 100 true).Wire.written.head?
      = some (0x60, [0x2F, 0xCA, 0xB0, 0x10, 0x00]) := by
  decide!

/-! ## Searching -/

theorem readStatus_requests (s : TEA5767N) :
    s.readStatus.Wire.requests = s.Wire.requests + 1 := by
  simp only [readStatus]
  split <;> rfl

theorem iterate_readStatus_requests (n : Nat) (s : TEA5767N) :
    (readStatus^[n] s).Wire.requests = s.Wire.requests + n := by
  induction n generalizing s with
  | zero => rfl
  | succ n ih =>
    rw [Function.iterate_succ_apply, ih, readStatus_requests]
    omega

theorem ready_zero_iff (b : Byte) : (toByte (b.val >>> 7)).val = 0 ↔ b.val.testBit 7 = false := by
  revert b
  decide!

theorem band_limit_val (b : Byte) :
    (toByte ((b.val >>> 6) &&& 1)).val = (b.val.testBit 6).toNat := by
  revert b
  decide!

theorem awaitReady_succ (fuel : Nat) (s : TEA5767N) :
    awaitReady (fuel + 1) s
      = if s.readStatus.reception_data.FIRST_DATA.val.testBit 7 = false
        then awaitReady fuel s.readStatus else some s.readStatus := by
  simp only [awaitReady, isReady, ready_zero_iff]

/-- The polling loop stops at the first status read that shows the ready flag. -/
theorem awaitReady_stops (N : Nat) : ∀ (s : TEA5767N) (fuel : Nat),
    (∀ k, 1 ≤ k → k < N + 1 →
      (readStatus^[k] s).reception_data.FIRST_DATA.val.testBit 7 = false) →
    (readStatus^[N + 1] s).reception_data.FIRST_DATA.val.testBit 7 = true →
    N + 1 ≤ fuel → awaitReady fuel s = some (readStatus^[N + 1] s) := by
  induction N with
  | zero =>
    intro s fuel _ hready hfuel
    obtain ⟨g, rfl⟩ : ∃ g, fuel = g + 1 := ⟨fuel - 1, by omega⟩
    rw [awaitReady_succ]
    have h : s.readStatus.reception_data.FIRST_DATA.val.testBit 7 = true := hready
    rw [if_neg (by rw [h]; decide)]
    rfl
  | succ n ih =>
    intro s fuel hwait hready hfuel
    obtain ⟨g, rfl⟩ : ∃ g, fuel = g + 1 := ⟨fuel - 1, by omega⟩
    rw [awaitReady_succ]
    have h1 : s.readStatus.reception_data.FIRST_DATA.val.testBit 7 = false :=
      hwait 1 (le_refl 1) (by omega)
    rw [if_pos h1, Function.iterate_succ_apply]
    apply ih
    · intro k hk1 hk2
      have := hwait (k + 1) (by omega) (by omega)
      rwa [Function.iterate_succ_apply] at this
    · rwa [Function.iterate_succ_apply] at hready
    · omega

/-- With fewer polls than it takes for the ready flag to show, the loop is still running. -/
theorem awaitReady_running (fuel : Nat) : ∀ (s : TEA5767N),
    (∀ k, 1 ≤ k → k < fuel + 1 →
      (readStatus^[k] s).reception_data.FIRST_DATA.val.testBit 7 = false) →
    awaitReady fuel s = none := by
  induction fuel with
  | zero => intro s _; rfl
  | succ g ih =>
    intro s hwait
    rw [awaitReady_succ]
    have h1 : s.readStatus.reception_data.FIRST_DATA.val.testBit 7 = false :=
      hwait 1 (le_refl 1) (by omega)
    rw [if_pos h1]
    apply ih
    intro k hk1 hk2
    have := hwait (k + 1) (by omega) (by omega)
    rwa [Function.iterate_succ_apply] at this

theorem searchNext_leave_result (s : TEA5767N) (m : Bool) :
    (s.searchNext_leave m).1.Wire.requests = s.Wire.requests + 2 ∧
    (s.searchNext_leave m).2
      = toByte ((s.readStatus.reception_data.FIRST_DATA.val >>> 6) &&& 1) := by
  have hr : s.readStatus.readStatus.Wire.requests = s.Wire.requests + 2 := by
    rw [readStatus_requests, readStatus_requests]
  cases m
  · exact ⟨hr, rfl⟩
  · exact ⟨hr, rfl⟩

/-- C10 as stated fails.  On a fresh driver facing `readyAtOnce` the first status read after
the search-mode transmission shows the ready flag (N = 1) with the band-limit flag 0 in
that image; `searchNext` returns after 3 status reads, not 1, and returns 1, the band-limit
flag of the following image. -/
theorem searchNext_reads_again :
    ((freshWith readyAtOnce).searchNext_enter false).readStatus.reception_data.FIRST_DATA.val.testBit 7
      = true ∧
    ((freshWith readyAtOnce).searchNext_enter false).readStatus.reception_data.FIRST_DATA.val.testBit 6
      = false ∧
    (searchNext 1 (freshWith readyAtOnce) false).map
        (fun r => (r.1.Wire.requests - ((freshWith readyAtOnce).searchNext_enter false).Wire.requests,
          r.2))
      = some (3, 1) := by
  decide!

/-- C10, amended.  Let the status images read after the search-mode transmission show the
ready flag (first byte, bit 7) for the first time on the `N`-th read, `N ≥ 1`.  Then
`searchNext` terminates (any bound of at least `N` polls gives the same result, fewer
give none): its polling loop makes exactly `N` status reads, `isBandLimitReached` and
`loadFrequency` make one more each, `N + 2` in all after that transmission, and the value
returned is the band-limit flag (first byte, bit 6, as 0 or 1) of the status image after
the `(N + 1)`-th read, the one `isBandLimitReached` makes. -/
theorem searchNext_terminates (s : TEA5767N) (m : Bool) (N : Nat) (hN : 1 ≤ N)
    (hwait : ∀ k, 1 ≤ k → k < N →
      (readStatus^[k] (s.searchNext_enter m)).reception_data.FIRST_DATA.val.testBit 7 = false)
    (hready :
      (readStatus^[N] (s.searchNext_enter m)).reception_data.FIRST_DATA.val.testBit 7 = true) :
    (∀ fuel, fuel < N → searchNext fuel s m = none) ∧
    (∀ fuel, N ≤ fuel →
      awaitReady fuel (s.searchNext_enter m) = some (readStatus^[N] (s.searchNext_enter m)) ∧
      ∃ r, searchNext fuel s m = some r ∧
        r.1.Wire.requests = (s.searchNext_enter m).Wire.requests + N + 2 ∧
        r.2.val = ((readStatus^[N + 1]
          (s.searchNext_enter m)).reception_data.FIRST_DATA.val.testBit 6).toNat) := by
  obtain ⟨n, rfl⟩ : ∃ n, N = n + 1 := ⟨N - 1, by omega⟩
  constructor
  · intro fuel hfuel
    have h := awaitReady_running fuel (s.searchNext_enter m)
      (fun k hk1 hk2 => hwait k hk1 (by omega))
    simp only [searchNext, h]
  · intro fuel hfuel
    have h := awaitReady_stops n (s.searchNext_enter m) fuel hwait hready hfuel
    refine ⟨h, (readStatus^[n + 1] (s.searchNext_enter m)).searchNext_leave m, ?_, ?_, ?_⟩
    · simp only [searchNext, h]
    · rw [(searchNext_leave_result _ m).1, iterate_readStatus_requests]
    · rw [(searchNext_leave_result _ m).2, band_limit_val]
      simp only [Function.iterate_succ_apply']

/-- Witness of C10 amended: facing `readyAtSecond` the ready flag shows on the second
read, and `searchNext` bounded by 2 polls returns after 4 status reads. -/
theorem searchNext_terminates_witness :
    ∃ r, searchNext 2 (freshWith readyAtSecond) false = some r ∧
      r.1.Wire.requests = ((freshWith readyAtSecond).searchNext_enter false).Wire.requests + 2 + 2 ∧
      r.2.val = ((readStatus^[2 + 1]
        ((freshWith readyAtSecond).searchNext_enter false)).reception_data.FIRST_DATA.val.testBit
          6).toNat :=
  ((searchNext_terminates (freshWith readyAtSecond) false 2 (by decide)
    (fun k hk1 hk2 => by
      obtain rfl : k = 1 := by omega
      decide!)
    (by decide!)).2 2 (le_refl 2)).2

/-! ## Settings and mute state under the operations -/

theorem readStatus_keeps (s : TEA5767N) :
    s.readStatus.transmission_data = s.transmission_data ∧
    s.readStatus.muted = s.muted ∧
    s.readStatus.Wire.written = s.Wire.written ∧
    s.readStatus.hiInjection = s.hiInjection := by
  simp only [readStatus]
  split <;> exact ⟨rfl, rfl, rfl, rfl⟩

theorem readStatus_settings (s : TEA5767N) : s.readStatus.settings = s.settings := by
  simp only [settings, (readStatus_keeps s).1]

theorem readStatus_muteState (s : TEA5767N) : s.readStatus.muteState = s.muteState := by
  simp only [muteState, (readStatus_keeps s).1, (readStatus_keeps s).2.1]

theorem transmitData_settings (s : TEA5767N) : s.transmitData.settings = s.settings := rfl

theorem transmitData_muteState (s : TEA5767N) : s.transmitData.muteState = s.muteState := rfl

theorem toggleMute_settings (s : TEA5767N) : s.toggleMute.settings = s.settings := rfl

theorem side_or_settings (b : Byte) :
    (toByte (b.val ||| 0b00010000)).val &&& 0b11101111 = b.val &&& 0b11101111 := by
  revert b
  decide!

theorem side_and_settings (b : Byte) :
    (toByte (b.val &&& 0b11101111)).val &&& 0b11101111 = b.val &&& 0b11101111 := by
  revert b
  decide!

theorem setHighSideLOInjection_settings (s : TEA5767N) :
    s.setHighSideLOInjection.settings = s.settings := by
  simp only [settings, setHighSideLOInjection, side_or_settings]

theorem setLowSideLOInjection_settings (s : TEA5767N) :
    s.setLowSideLOInjection.settings = s.settings := by
  simp only [settings, setLowSideLOInjection, side_and_settings]

theorem setHighSideLOInjection_muteState (s : TEA5767N) :
    s.setHighSideLOInjection.muteState = s.muteState := rfl

theorem setLowSideLOInjection_muteState (s : TEA5767N) :
    s.setLowSideLOInjection.muteState = s.muteState := rfl

theorem setFrequency_settings (s : TEA5767N) (f : ℚ) :
    (s.setFrequency f).settings = s.settings := by
  simp only [settings, setFrequency]
  split
  · simp only [setHighSideLOInjection, side_or_settings]
  · simp only [setLowSideLOInjection, side_and_settings]

/-- Merging a six-bit value below the top two bits keeps bit 7. -/
theorem pll_merge_bit7 (b : Byte) (x : Nat) (hx : x < 64) :
    (toByte ((b.val &&& 0xC0) ||| x)).val.testBit 7 = b.val.testBit 7 := by
  revert b
  have h : ∀ y : Fin 64, ∀ b : Byte,
      (toByte ((b.val &&& 0xC0) ||| y.val)).val.testBit 7 = b.val.testBit 7 := by decide!
  exact fun b => h ⟨x, hx⟩ b

theorem and_63_lt (x : Nat) : x &&& 0x3F < 64 := by
  rw [show (0x3F : Nat) = 2 ^ 6 - 1 from rfl, Nat.and_pow_two_sub_one_eq_mod]
  exact Nat.mod_lt _ (by decide)

theorem setFrequency_muteState (s : TEA5767N) (f : ℚ) :
    (s.setFrequency f).muteState = s.muteState := by
  simp only [muteState, setFrequency]
  split
  · simp only [setHighSideLOInjection, pll_merge_bit7 _ _ (and_63_lt _)]
  · simp only [setLowSideLOInjection, pll_merge_bit7 _ _ (and_63_lt _)]

theorem getSignalLevel_settings (s : TEA5767N) : s.getSignalLevel.1.settings = s.settings := by
  simp only [getSignalLevel, readStatus_settings, transmitData_settings]

theorem getSignalLevel_muteState (s : TEA5767N) : s.getSignalLevel.1.muteState = s.muteState := by
  simp only [getSignalLevel, readStatus_muteState, transmitData_muteState]

theorem calculateOptimalLOInjection_settings (s : TEA5767N) (f : ℚ) :
    (s.calculateOptimalLOInjection f).settings = s.settings := by
  have h : (s.calculateOptimalLOInjection f).settings
      = ((((s.setHighSideLOInjection.setFrequency
          (toFloat (toDouble (f + toDouble 0.45)))).getSignalLevel.1.setLowSideLOInjection).setFrequency
          (toFloat (toDouble (f - toDouble 0.45)))).getSignalLevel.1).settings := rfl
  rw [h, getSignalLevel_settings, setFrequency_settings, setLowSideLOInjection_settings,
    getSignalLevel_settings, setFrequency_settings, setHighSideLOInjection_settings]

theorem calculateOptimalLOInjection_muteState (s : TEA5767N) (f : ℚ) :
    (s.calculateOptimalLOInjection f).muteState = s.muteState := by
  have h : (s.calculateOptimalLOInjection f).muteState
      = ((((s.setHighSideLOInjection.setFrequency
          (toFloat (toDouble (f + toDouble 0.45)))).getSignalLevel.1.setLowSideLOInjection).setFrequency
          (toFloat (toDouble (f - toDouble 0.45)))).getSignalLevel.1).muteState := rfl
  rw [h, getSignalLevel_muteState, setFrequency_muteState, setLowSideLOInjection_muteState,
    getSignalLevel_muteState, setFrequency_muteState, setHighSideLOInjection_muteState]

theorem mute_bit_set (b : Byte) : (toByte (b.val ||| 0b10000000)).val.testBit 7 = true := by
  revert b
  decide!

theorem mute_bit_clear (b : Byte) : (toByte (b.val &&& 0b01111111)).val.testBit 7 = false := by
  revert b
  decide!

/-- Unmuting: `toggleMute` on a muted driver clears the member and the bit. -/
theorem toggleMute_of_muted (s : TEA5767N) (h : s.muted = true) :
    s.toggleMute.muteState = (false, false) := by
  simp only [muteState, toggleMute, transmitData, h, Bool.not_true, Bool.false_eq_true, if_false,
    mute_bit_clear]

/-- Muting: `toggleMute` on an unmuted driver sets the member and the bit. -/
theorem toggleMute_of_unmuted (s : TEA5767N) (h : s.muted = false) :
    s.toggleMute.muteState = (true, true) := by
  simp only [muteState, toggleMute, transmitData, h, Bool.not_false, if_true, mute_bit_set]

theorem muteState_muted (s : TEA5767N) : s.muted = s.muteState.1 := rfl

theorem selectFrequency_false_muteState (s : TEA5767N) (f : ℚ) :
    (s.selectFrequency f false).muteState = s.muteState := by
  rw [selectFrequency_false, setFrequency_muteState, calculateOptimalLOInjection_muteState]

theorem selectFrequency_false_settings (s : TEA5767N) (f : ℚ) :
    (s.selectFrequency f false).settings = s.settings := by
  rw [selectFrequency_false, setFrequency_settings, calculateOptimalLOInjection_settings]

theorem mute_then_unmute (s t : TEA5767N)
    (h : t.muteState = (({ s with muted := false }).toggleMute).muteState) :
    t.toggleMute.muteState = (false, false) := by
  rw [toggleMute_of_unmuted _ rfl] at h
  apply toggleMute_of_muted
  rw [muteState_muted, h]

theorem selectFrequency_true_muteState (s : TEA5767N) (f : ℚ) :
    (s.selectFrequency f true).muteState = (false, false) := by
  rw [selectFrequency_true]
  apply mute_then_unmute s
  rw [setFrequency_muteState, calculateOptimalLOInjection_muteState]

theorem selectFrequency_true_settings (s : TEA5767N) (f : ℚ) :
    (s.selectFrequency f true).settings = s.settings := by
  rw [selectFrequency_true, toggleMute_settings, setFrequency_settings,
    calculateOptimalLOInjection_settings, toggleMute_settings]
  rfl

theorem selectFrequency_settings (s : TEA5767N) (f : ℚ) (m : Bool) :
    (s.selectFrequency f m).settings = s.settings := by
  cases m
  · exact selectFrequency_false_settings s f
  · exact selectFrequency_true_settings s f

theorem selectChannel_false (s : TEA5767N) (c : Int) :
    s.selectChannel c false
      = s.selectFrequency
          (toFloat (toDouble (toDouble 87.9 + toDouble ((((c - 200 : Int)) : ℚ) * toDouble 0.2)))) false := rfl

theorem selectChannel_true (s : TEA5767N) (c : Int) :
    s.selectChannel c true
      = (((({ s with muted := false }).toggleMute).selectFrequency
          (toFloat (toDouble (toDouble 87.9 + toDouble ((((c - 200 : Int)) : ℚ) * toDouble 0.2)))) false)).toggleMute := rfl

theorem selectChannel_settings (s : TEA5767N) (c : Int) (m : Bool) :
    (s.selectChannel c m).settings = s.settings := by
  cases m
  · rw [selectChannel_false, selectFrequency_false_settings]
  · rw [selectChannel_true, toggleMute_settings, selectFrequency_false_settings,
      toggleMute_settings]
    rfl

/-- C20. `selectFrequency(f, true)` and `selectChannel(c, true)` return with `muted`
false and the mute bit (first byte, bit 7) 0 whatever the mute state was before the call;
`selectFrequency(f, false)` and `selectChannel(c, false)` leave the member `muted` and the
mute bit exactly as they were. -/
theorem mute_after_selection (s : TEA5767N) (f : ℚ) (c : Int) :
    ((s.selectFrequency f true).muted = false ∧
      (s.selectFrequency f true).transmission_data.FIRST_DATA.val.testBit 7 = false) ∧
    ((s.selectChannel c true).muted = false ∧
      (s.selectChannel c true).transmission_data.FIRST_DATA.val.testBit 7 = false) ∧
    ((s.selectFrequency f false).muted = s.muted ∧
      (s.selectFrequency f false).transmission_data.FIRST_DATA.val.testBit 7
        = s.transmission_data.FIRST_DATA.val.testBit 7) ∧
    ((s.selectChannel c false).muted = s.muted ∧
      (s.selectChannel c false).transmission_data.FIRST_DATA.val.testBit 7
        = s.transmission_data.FIRST_DATA.val.testBit 7) := by
  have split : ∀ (t : TEA5767N) (p : Bool × Bool), t.muteState = p →
      t.muted = p.1 ∧ t.transmission_data.FIRST_DATA.val.testBit 7 = p.2 := by
    intro t p h
    exact ⟨congrArg Prod.fst h, congrArg Prod.snd h⟩
  refine ⟨split _ _ (selectFrequency_true_muteState s f), ?_,
    split _ _ (selectFrequency_false_muteState s f), ?_⟩
  · apply split _ (false, false)
    rw [selectChannel_true]
    apply mute_then_unmute s
    rw [selectFrequency_false_muteState]
  · apply split _ s.muteState
    rw [selectChannel_false, selectFrequency_false_muteState]

/-! ## Construction -/

/-- C12. Right after construction, over any object storage, the transmission image is
`00 00 B0 10 00`: mute bit 0 and search-mode bit 0 (first byte, bits 7 and 6), search stop
level 01 (third byte, bits 6:5), injection-side bit 1 (bit 4), forced-mono bit 0 (bit 3),
mute-right and mute-left bits 0 (bits 2 and 1), standby bit 0 and band-select bit 0 (fourth
byte, bits 6 and 5), XTAL bit 1 (fourth byte, bit 4) with PLLREF bit 0 (fifth byte, bit 7),
de-emphasis bit 0 (fifth byte, bit 6); and the eight boolean members are false. -/
theorem constructor_image (mem : TEA5767N) :
    (new mem).transmission_data.toList = [0x00, 0x00, 0xB0, 0x10, 0x00] ∧
    ((new mem).transmission_data.FIRST_DATA.val.testBit 7 = false ∧
      (new mem).transmission_data.FIRST_DATA.val.testBit 6 = false) ∧
    ((new mem).transmission_data.THIRD_DATA.val.testBit 6 = false ∧
      (new mem).transmission_data.THIRD_DATA.val.testBit 5 = true ∧
      (new mem).transmission_data.THIRD_DATA.val / 32 % 4 = LOW_STOP_LEVEL) ∧
    (new mem).transmission_data.THIRD_DATA.val.testBit 4 = true ∧
    ((new mem).transmission_data.THIRD_DATA.val.testBit 3 = false ∧
      (new mem).transmission_data.THIRD_DATA.val.testBit 2 = false ∧
      (new mem).transmission_data.THIRD_DATA.val.testBit 1 = false) ∧
    ((new mem).transmission_data.FOURTH_DATA.val.testBit 6 = false ∧
      (new mem).transmission_data.FOURTH_DATA.val.testBit 5 = false ∧
      (new mem).transmission_data.FOURTH_DATA.val.testBit 4 = true) ∧
    ((new mem).transmission_data.FIFTH_DATA.val.testBit 7 = false ∧
      (new mem).transmission_data.FIFTH_DATA.val.testBit 6 = false) ∧
    ((new mem).muted = false ∧ (new mem).mutedLeft = false ∧ (new mem).mutedRight = false ∧
      (new mem).softMuted = false ∧ (new mem).highCutControl = false ∧
      (new mem).stereoNoiseCancelling = false ∧ (new mem).standby = false ∧
      (new mem).forcedMono = false) := by
  have h0 : (new mem).transmission_data.FIRST_DATA = toByte 0 := rfl
  have h2 : (new mem).transmission_data.THIRD_DATA = toByte 0xB0 := rfl
  have h3 : (new mem).transmission_data.FOURTH_DATA = toByte 0x10 := rfl
  have h4 : (new mem).transmission_data.FIFTH_DATA = toByte 0x00 := rfl
  refine ⟨rfl, ?_, ?_, ?_, ?_, ?_, ?_, rfl, rfl, rfl, rfl, rfl, rfl, rfl, rfl⟩
  all_goals
    simp only [h0, h2, h3, h4]
    decide

/-! ## Reading the status -/

/-- C13. `readStatus` leaves all five bytes of the reception image as they were when the
bus has no data available, and overwrites them with the five bytes read, in index order,
when data is available (a read from the exhausted buffer giving `0xFF`); in both cases the
transmission image and the eight boolean members are unchanged. -/
theorem readStatus_effect (s : TEA5767N) (buffer : List Byte)
    (hbuf : (s.Wire.incoming.headD []).take 5 = buffer) :
    (buffer = [] → s.readStatus.reception_data = s.reception_data) ∧
    (buffer ≠ [] → s.readStatus.reception_data.toList
      = [buffer.getD 0 0xFF, buffer.getD 1 0xFF, buffer.getD 2 0xFF, buffer.getD 3 0xFF,
         buffer.getD 4 0xFF]) ∧
    (∀ b0 b1 b2 b3 b4, buffer = [b0, b1, b2, b3, b4] →
      s.readStatus.reception_data.toList = [b0, b1, b2, b3, b4]) ∧
    s.readStatus.transmission_data = s.transmission_data ∧
    (s.readStatus.muted = s.muted ∧ s.readStatus.mutedLeft = s.mutedLeft ∧
      s.readStatus.mutedRight = s.mutedRight ∧ s.readStatus.softMuted = s.softMuted ∧
      s.readStatus.highCutControl = s.highCutControl ∧
      s.readStatus.stereoNoiseCancelling = s.stereoNoiseCancelling ∧
      s.readStatus.standby = s.standby ∧ s.readStatus.forcedMono = s.forcedMono) := by
  have hfull : buffer ≠ [] → s.readStatus.reception_data.toList
      = [buffer.getD 0 0xFF, buffer.getD 1 0xFF, buffer.getD 2 0xFF, buffer.getD 3 0xFF,
         buffer.getD 4 0xFF] := by
    intro hne
    have hlen : buffer.length ≠ 0 := fun h => hne (List.length_eq_zero.mp h)
    simp only [readStatus, hbuf, hlen, ne_eq, not_false_eq_true, if_true]
    rfl
  refine ⟨?_, hfull, ?_, ?_, ?_⟩
  · intro he
    simp only [readStatus, hbuf, he, List.length_nil, ne_eq, not_true_eq_false, if_false]
  · intro b0 b1 b2 b3 b4 he
    rw [hfull (by rw [he]; exact List.cons_ne_nil _ _), he]
    rfl
  · simp only [readStatus]
    split <;> rfl
  · simp only [readStatus]
    split <;> exact ⟨rfl, rfl, rfl, rfl, rfl, rfl, rfl, rfl⟩

/-- Witness of C13: a fresh driver whose device delivers five bytes. -/
theorem readStatus_effect_witness :
    (freshWith [[1, 2, 3, 4, 5]]).readStatus.reception_data.toList = [1, 2, 3, 4, 5] ∧
    (freshWith [[1, 2, 3, 4, 5]]).readStatus.transmission_data
      = (freshWith [[1, 2, 3, 4, 5]]).transmission_data :=
  ⟨(readStatus_effect (freshWith [[1, 2, 3, 4, 5]]) [1, 2, 3, 4, 5] (by decide)).2.2.1
      1 2 3 4 5 rfl,
   (readStatus_effect (freshWith [[1, 2, 3, 4, 5]]) [1, 2, 3, 4, 5] (by decide)).2.2.2.1⟩

/-! ## Toggles on the bus -/

theorem Toggle.run_writes_once (t : Toggle) (s : TEA5767N) :
    (t.run s).Wire.written
      = (TEA5767_I2C_ADDRESS, (t.run s).transmission_data.toList) :: s.Wire.written := by
  cases t <;> rfl

theorem Toggle.runAll_written_length (ts : List Toggle) : ∀ s : TEA5767N,
    (Toggle.runAll ts s).Wire.written.length = s.Wire.written.length + ts.length := by
  induction ts with
  | nil => intro s; rfl
  | cons t ts ih =>
    intro s
    have h : Toggle.runAll (t :: ts) s = Toggle.runAll ts (t.run s) := rfl
    rw [h, ih, Toggle.run_writes_once, List.length_cons, List.length_cons]
    omega

/-- C15. Each of the eight toggle operations makes exactly one bus write and no bus read:
the log of transmissions grows by one entry, addressed to `0x60` and holding the five bytes
of the transmission image as the toggle leaves it, in index order, while the count of
status requests, the pending device answers and the reception image stay as they were;
hence a sequence of `k` toggles makes exactly `k` bus writes and no read. -/
theorem toggle_writes_once (t : Toggle) (s : TEA5767N) (ts : List Toggle) :
    (t.run s).Wire.written
      = (0x60, [(t.run s).transmission_data.FIRST_DATA, (t.run s).transmission_data.SECOND_DATA,
          (t.run s).transmission_data.THIRD_DATA, (t.run s).transmission_data.FOURTH_DATA,
          (t.run s).transmission_data.FIFTH_DATA]) :: s.Wire.written ∧
    (t.run s).Wire.requests = s.Wire.requests ∧
    (t.run s).Wire.incoming = s.Wire.incoming ∧
    (t.run s).reception_data = s.reception_data ∧
    (Toggle.runAll ts s).Wire.written.length = s.Wire.written.length + ts.length ∧
    (Toggle.runAll ts s).Wire.requests = s.Wire.requests := by
  refine ⟨Toggle.run_writes_once t s, ?_, ?_, ?_, Toggle.runAll_written_length ts s, ?_⟩
  · cases t <;> rfl
  · cases t <;> rfl
  · cases t <;> rfl
  · induction ts generalizing s with
    | nil => rfl
    | cons u us ih =>
      have h : Toggle.runAll (u :: us) s = Toggle.runAll us (u.run s) := rfl
      rw [h, ih]
      cases u <;> rfl

/-! ## The mute-left toggle -/

theorem mute_left_bit_set (b : Byte) : (toByte (b.val ||| 0b00000010)).val.testBit 1 = true := by
  revert b
  decide!

theorem mute_left_bit_clear (b : Byte) :
    (toByte (b.val &&& 0b11111101)).val.testBit 1 = false := by
  revert b
  decide!

/-- C16. `toggleMuteLeft` negates the member `mutedLeft` and writes the current value of
`mutedRight` into the mute-left bit (third byte, bit 1): after the call the bit is 1 exactly
when `mutedRight` is true, and `mutedRight` itself is unchanged. -/
theorem toggleMuteLeft_uses_mutedRight (s : TEA5767N) :
    s.toggleMuteLeft.mutedLeft = (!s.mutedLeft) ∧
    s.toggleMuteLeft.transmission_data.THIRD_DATA.val.testBit 1 = s.mutedRight ∧
    s.toggleMuteLeft.mutedRight = s.mutedRight := by
  refine ⟨rfl, ?_, rfl⟩
  cases h : s.mutedRight
  · simp only [toggleMuteLeft, transmitData, h, Bool.false_eq_true, if_false, mute_left_bit_clear]
  · simp only [toggleMuteLeft, transmitData, h, if_true, mute_left_bit_set]

/-! ## The PLL word inside the band -/

/-- The word `readFrequencyInMHz` would reassemble from the image `setFrequency` leaves is
the computed word modulo `2^14`. -/
theorem setFrequency_reassembled (s : TEA5767N) (f : ℚ) :
    ((s.setFrequency f).transmission_data.FIRST_DATA.val &&& 0x3F) * 256
        + (s.setFrequency f).transmission_data.SECOND_DATA.val
      = frequencyW s.hiInjection f % 16384 := by
  have hlt : (frequencyW s.hiInjection f >>> 8) &&& 0x3F < 64 := and_63_lt _
  have e1 : (s.setFrequency f).transmission_data.FIRST_DATA
      = toByte ((s.transmission_data.FIRST_DATA.val &&& 0xC0)
          ||| ((frequencyW s.hiInjection f >>> 8) &&& 0x3F)) := by
    simp only [setFrequency]
    split <;> rfl
  have e2 : (s.setFrequency f).transmission_data.SECOND_DATA
      = toByte (frequencyW s.hiInjection f &&& 0xFF) := rfl
  rw [e1, e2, take_low_six _ _ hlt, high_six_of_word, low_eight_of_word]
  omega

/-- C19 as stated fails in its description of the word: for 92.84375 MHz with low-side
injection the exact quotient is 11305.9997..., whose integer part is 11305, and
`setFrequency` computes 11306, because `92.84375f * 1000000` is 92843752 in single
precision. -/
theorem band_word_not_integer_part :
    (87 : ℚ) ≤ 92.84375 ∧ (92.84375 : ℚ) ≤ 108 ∧
    toFloat (92.84375 * 1000000) = 92843752 ∧
    frequencyW 0 92.84375 = 11306 ∧
    ⌊4 * (((92.84375 : ℚ) * 1000000) - 225000) / 32768⌋ = 11305 := by
  decide!

/-- C19, amended.  For `87.0 ≤ f ≤ 108.0` (MHz) and either injection side the PLL word
`setFrequency` computes, which is the integer part of `4 * (f * 10^6 ± 225000) / 32768` or
one more (the quotient being formed in single precision), is below `2^14`; so the 14-bit
masking of the write-back discards nothing: the word reassembled from bits 5:0 of the
first byte and the second byte is the computed word itself. -/
theorem band_word_fits (s : TEA5767N) (f : ℚ) (hlo : 87 ≤ f) (hhi : f ≤ 108) :
    frequencyW s.hiInjection f < 2 ^ 14 ∧
    ((frequencyW s.hiInjection f : ℤ)
        = ⌊4 * ((f * 1000000) + (if s.hiInjection.val ≠ 0 then 225000 else -225000)) / 32768⌋ ∨
      (frequencyW s.hiInjection f : ℤ)
        = ⌊4 * ((f * 1000000) + (if s.hiInjection.val ≠ 0 then 225000 else -225000)) / 32768⌋
          + 1) ∧
    ((s.setFrequency f).transmission_data.FIRST_DATA.val &&& 0x3F) * 256
        + (s.setFrequency f).transmission_data.SECOND_DATA.val
      = frequencyW s.hiInjection f := by
  have hb := frequencyW_band s.hiInjection f (by norm_num; linarith) (by norm_num; linarith)
  have hfit : frequencyW s.hiInjection f < 2 ^ 14 := by
    have h : (frequencyW s.hiInjection f : ℤ) < 2 ^ 14 := by
      rw [hb.1]
      have := hb.2.2
      omega
    exact_mod_cast h
  refine ⟨hfit, frequencyW_near_floor s.hiInjection f (by norm_num; linarith)
    (by norm_num; linarith), ?_⟩
  rw [setFrequency_reassembled]
  exact Nat.mod_eq_of_lt hfit

/-- Witness of C19 amended: 92.84375 MHz on a fresh driver (low side), where the word is one
above the integer part of the exact quotient. -/
theorem band_word_fits_witness :
    frequencyW fresh.hiInjection 92.84375 < 2 ^ 14 ∧
    ((fresh.setFrequency 92.84375).transmission_data.FIRST_DATA.val &&& 0x3F) * 256
        + (fresh.setFrequency 92.84375).transmission_data.SECOND_DATA.val
      = frequencyW fresh.hiInjection 92.84375 :=
  ⟨(band_word_fits fresh 92.84375 (by norm_num) (by norm_num)).1,
   (band_word_fits fresh 92.84375 (by norm_num) (by norm_num)).2.2⟩

/-! ## Inside a search -/

theorem loadFrequency_effect (s : TEA5767N) :
    s.loadFrequency.transmission_data.FIRST_DATA
      = toByte ((s.transmission_data.FIRST_DATA.val &&& 0xC0)
          ||| (s.readStatus.reception_data.FIRST_DATA.val &&& 0x3F)) ∧
    s.loadFrequency.transmission_data.SECOND_DATA = s.readStatus.reception_data.SECOND_DATA ∧
    s.loadFrequency.reception_data = s.readStatus.reception_data ∧
    s.loadFrequency.Wire = s.readStatus.Wire ∧
    s.loadFrequency.settings = s.settings ∧
    s.loadFrequency.muteState = s.muteState := by
  refine ⟨?_, rfl, rfl, rfl, ?_, ?_⟩
  · simp only [loadFrequency, (readStatus_keeps s).1]
  · simp only [loadFrequency, settings, (readStatus_keeps s).1]
  · simp only [loadFrequency, muteState, (readStatus_keeps s).1, (readStatus_keeps s).2.1,
      pll_merge_bit7 _ _ (and_63_lt _)]

theorem search_bit_set (b : Byte) :
    (toByte (b.val ||| 0b01000000)).val.testBit 6 = true ∧
    (toByte (b.val ||| 0b01000000)).val.testBit 7 = b.val.testBit 7 := by
  revert b
  decide!

theorem search_bit_clear (b : Byte) :
    (toByte (b.val &&& 0b10111111)).val.testBit 6 = false ∧
    (toByte (b.val &&& 0b10111111)).val.testBit 7 = b.val.testBit 7 ∧
    (toByte (b.val &&& 0b10111111)).val &&& 0x3F = b.val &&& 0x3F := by
  revert b
  decide!

theorem mute_bit_apart (b : Byte) (c : Bool) :
    (if c then toByte (b.val ||| 0b10000000) else toByte (b.val &&& 0b01111111)).val.testBit 6
      = b.val.testBit 6 ∧
    (if c then toByte (b.val ||| 0b10000000) else toByte (b.val &&& 0b01111111)).val &&& 0x3F
      = b.val &&& 0x3F := by
  revert b c
  decide!

/-- What `toggleMute` does to the rest of the state. -/
theorem toggleMute_effect (s : TEA5767N) :
    s.toggleMute.transmission_data.FIRST_DATA.val.testBit 6
      = s.transmission_data.FIRST_DATA.val.testBit 6 ∧
    s.toggleMute.transmission_data.FIRST_DATA.val &&& 0x3F
      = s.transmission_data.FIRST_DATA.val &&& 0x3F ∧
    s.toggleMute.transmission_data.SECOND_DATA = s.transmission_data.SECOND_DATA ∧
    s.toggleMute.reception_data = s.reception_data ∧
    s.toggleMute.Wire.written
      = (TEA5767_I2C_ADDRESS, s.toggleMute.transmission_data.toList) :: s.Wire.written := by
  have h := mute_bit_apart s.transmission_data.FIRST_DATA (!s.muted)
  exact ⟨h.1, h.2, rfl, rfl, rfl⟩

/-- The state in which `searchNext` starts polling: the search-mode bit is set in the
image left by the nudged `selectFrequency`, and that image is transmitted. -/
theorem searchNext_enter_shape (s : TEA5767N) (m : Bool) :
    ∃ g : ℚ, s.searchNext_enter m
      = (fun u : TEA5767N =>
          ({ u with transmission_data.FIRST_DATA :=
              toByte (u.transmission_data.FIRST_DATA.val ||| 0b01000000) }).transmitData)
        (((if m then ({ s with muted := false }).toggleMute else s).loadFrequency).selectFrequency
          g false) := by
  by_cases h : (if m then ({ s with muted := false }).toggleMute else s).isSearchUp.val ≠ 0
  · refine ⟨toFloat (toDouble ((if m then ({ s with muted := false }).toggleMute
      else s).readFrequencyInMHz.2 + toDouble 0.1)), ?_⟩
    simp only [searchNext_enter]
    rw [if_pos h]
    rfl
  · refine ⟨toFloat (toDouble ((if m then ({ s with muted := false }).toggleMute
      else s).readFrequencyInMHz.2 - toDouble 0.1)), ?_⟩
    simp only [searchNext_enter]
    rw [if_neg h]
    rfl

theorem mute_first_settings (s : TEA5767N) (m : Bool) :
    (if m then ({ s with muted := false }).toggleMute else s).settings = s.settings := by
  cases m <;> rfl

theorem searchNext_enter_effect (s : TEA5767N) (m : Bool) :
    (s.searchNext_enter m).settings = s.settings ∧
    (s.searchNext_enter m).transmission_data.FIRST_DATA.val.testBit 6 = true ∧
    (s.searchNext_enter m).Wire.written.head?
      = some (TEA5767_I2C_ADDRESS, (s.searchNext_enter m).transmission_data.toList) := by
  obtain ⟨g, hg⟩ := searchNext_enter_shape s m
  rw [hg]
  refine ⟨?_, (search_bit_set _).1, rfl⟩
  have h : ∀ u : TEA5767N,
      ((fun u : TEA5767N =>
          ({ u with transmission_data.FIRST_DATA :=
              toByte (u.transmission_data.FIRST_DATA.val ||| 0b01000000) }).transmitData) u).settings
        = u.settings := fun _ => rfl
  rw [h, selectFrequency_false_settings, (loadFrequency_effect _).2.2.2.2.1, mute_first_settings]

theorem searchNext_enter_muteState (s : TEA5767N) :
    (s.searchNext_enter false).muteState = s.muteState := by
  obtain ⟨g, hg⟩ := searchNext_enter_shape s false
  rw [hg]
  have h : ∀ u : TEA5767N,
      ((fun u : TEA5767N =>
          ({ u with transmission_data.FIRST_DATA :=
              toByte (u.transmission_data.FIRST_DATA.val ||| 0b01000000) }).transmitData) u).muteState
        = u.muteState := by
    intro u
    simp only [muteState, transmitData, (search_bit_set _).2]
  rw [h, selectFrequency_false_muteState, (loadFrequency_effect _).2.2.2.2.2]
  rfl

/-- Polling changes neither the transmission image, nor the boolean `muted`, nor the log
of transmissions. -/
theorem awaitReady_keeps (fuel : Nat) : ∀ (s t : TEA5767N), awaitReady fuel s = some t →
    t.transmission_data = s.transmission_data ∧ t.muted = s.muted ∧
    t.Wire.written = s.Wire.written := by
  induction fuel with
  | zero =>
    intro s t h
    simp [awaitReady] at h
  | succ n ih =>
    intro s t h
    rw [awaitReady_succ] at h
    have hk := readStatus_keeps s
    split at h
    · obtain ⟨h1, h2, h3⟩ := ih _ _ h
      exact ⟨h1.trans hk.1, h2.trans hk.2.1, h3.trans hk.2.2.1⟩
    · cases h
      exact ⟨hk.1, hk.2.1, hk.2.2.1⟩

theorem searchNext_leave_shape (x : TEA5767N) :
    (x.searchNext_leave false).1
        = (fun u : TEA5767N =>
            ({ u with transmission_data.FIRST_DATA :=
                toByte (u.transmission_data.FIRST_DATA.val &&& 0b10111111) }).transmitData)
          x.readStatus.loadFrequency ∧
    (x.searchNext_leave true).1 = (x.searchNext_leave false).1.toggleMute :=
  ⟨rfl, rfl⟩

/-- The state `searchNext(false)` leaves behind, given the state `x` in which the polling
loop stopped. -/
theorem searchNext_leave_false_effect (x : TEA5767N) :
    (x.searchNext_leave false).1.transmission_data.FIRST_DATA.val.testBit 6 = false ∧
    (x.searchNext_leave false).1.transmission_data.FIRST_DATA.val &&& 0x3F
      = (x.searchNext_leave false).1.reception_data.FIRST_DATA.val &&& 0x3F ∧
    (x.searchNext_leave false).1.transmission_data.SECOND_DATA
      = (x.searchNext_leave false).1.reception_data.SECOND_DATA ∧
    (x.searchNext_leave false).1.settings = x.settings ∧
    (x.searchNext_leave false).1.muteState = x.muteState ∧
    (x.searchNext_leave false).1.Wire.written
      = (TEA5767_I2C_ADDRESS, (x.searchNext_leave false).1.transmission_data.toList)
          :: x.Wire.written := by
  have hl := loadFrequency_effect x.readStatus
  have hk := readStatus_keeps x
  have hk2 := readStatus_keeps x.readStatus
  rw [(searchNext_leave_shape x).1]
  refine ⟨(search_bit_clear _).1, ?_, ?_, ?_, ?_, ?_⟩
  · show (toByte (x.readStatus.loadFrequency.transmission_data.FIRST_DATA.val
        &&& 0b10111111)).val &&& 0x3F
      = x.readStatus.loadFrequency.reception_data.FIRST_DATA.val &&& 0x3F
    rw [(search_bit_clear _).2.2, hl.1, take_low_six _ _ (and_63_lt _), hl.2.2.1]
  · exact hl.2.1.trans (congrArg Data.SECOND_DATA hl.2.2.1.symm)
  · show x.readStatus.loadFrequency.settings = x.settings
    rw [hl.2.2.2.2.1, readStatus_settings]
  · have h : ∀ u : TEA5767N,
        ((fun u : TEA5767N =>
            ({ u with transmission_data.FIRST_DATA :=
                toByte (u.transmission_data.FIRST_DATA.val &&& 0b10111111) }).transmitData)
          u).muteState = u.muteState := by
      intro u
      simp only [muteState, transmitData, (search_bit_clear _).2.1]
    rw [h, hl.2.2.2.2.2, readStatus_muteState]
  · have hw : x.readStatus.loadFrequency.Wire.written = x.Wire.written := by
      rw [hl.2.2.2.1, hk2.2.2.1, hk.2.2.1]
    show _ :: x.readStatus.loadFrequency.Wire.written = _ :: x.Wire.written
    rw [hw]
    rfl

theorem searchNext_leave_effect (x : TEA5767N) (m : Bool) :
    (x.searchNext_leave m).1.transmission_data.FIRST_DATA.val.testBit 6 = false ∧
    (x.searchNext_leave m).1.transmission_data.FIRST_DATA.val &&& 0x3F
      = (x.searchNext_leave m).1.reception_data.FIRST_DATA.val &&& 0x3F ∧
    (x.searchNext_leave m).1.transmission_data.SECOND_DATA
      = (x.searchNext_leave m).1.reception_data.SECOND_DATA ∧
    (x.searchNext_leave m).1.settings = x.settings ∧
    (x.searchNext_leave m).1.Wire.written.head?
      = some (TEA5767_I2C_ADDRESS, (x.searchNext_leave m).1.transmission_data.toList) := by
  have hf := searchNext_leave_false_effect x
  cases m
  · refine ⟨hf.1, hf.2.1, hf.2.2.1, hf.2.2.2.1, ?_⟩
    rw [hf.2.2.2.2.2]
    rfl
  · have ht := toggleMute_effect (x.searchNext_leave false).1
    rw [(searchNext_leave_shape x).2]
    refine ⟨ht.1.trans hf.1, ?_, ?_, ?_, ?_⟩
    · rw [ht.2.1, ht.2.2.2.1]
      exact hf.2.1
    · rw [ht.2.2.1, ht.2.2.2.1]
      exact hf.2.2.1
    · rw [toggleMute_settings]
      exact hf.2.2.2.1
    · rw [ht.2.2.2.2]
      rfl

theorem searchNext_some (fuel : Nat) (s : TEA5767N) (m : Bool) (r : TEA5767N × Byte)
    (hret : searchNext fuel s m = some r) :
    ∃ x, awaitReady fuel (s.searchNext_enter m) = some x ∧ r = x.searchNext_leave m := by
  unfold searchNext at hret
  cases h : awaitReady fuel (s.searchNext_enter m) with
  | none => rw [h] at hret; cases hret
  | some x =>
    rw [h] at hret
    exact ⟨x, rfl, (Option.some.inj hret).symm⟩

theorem settings_of_td (s t : TEA5767N) (h : t.transmission_data = s.transmission_data) :
    t.settings = s.settings := by
  simp only [settings, h]

/-- C14. Whenever `searchNext` returns, for either value of `muteDuringSearch`: the
search-mode bit (first byte, bit 6) of the transmission image is 0; the PLL field of the
transmission image is that of the current reception image (bits 5:0 of the first byte and
the whole second byte); the third byte apart from its bit 4, the fourth and the fifth byte
of the transmission image are as before the call; and the last image written to the bus
is the final transmission image. -/
theorem searchNext_on_return (fuel : Nat) (s : TEA5767N) (m : Bool) (r : TEA5767N × Byte)
    (hret : searchNext fuel s m = some r) :
    r.1.transmission_data.FIRST_DATA.val.testBit 6 = false ∧
    (r.1.transmission_data.FIRST_DATA.val &&& 0x3F
        = r.1.reception_data.FIRST_DATA.val &&& 0x3F ∧
      r.1.transmission_data.SECOND_DATA = r.1.reception_data.SECOND_DATA) ∧
    (r.1.transmission_data.THIRD_DATA.val &&& 0b11101111
        = s.transmission_data.THIRD_DATA.val &&& 0b11101111 ∧
      r.1.transmission_data.FOURTH_DATA = s.transmission_data.FOURTH_DATA ∧
      r.1.transmission_data.FIFTH_DATA = s.transmission_data.FIFTH_DATA) ∧
    r.1.Wire.written.head?
      = some (0x60, [r.1.transmission_data.FIRST_DATA, r.1.transmission_data.SECOND_DATA,
          r.1.transmission_data.THIRD_DATA, r.1.transmission_data.FOURTH_DATA,
          r.1.transmission_data.FIFTH_DATA]) := by
  obtain ⟨x, hx, rfl⟩ := searchNext_some fuel s m r hret
  have hl := searchNext_leave_effect x m
  have hset : (x.searchNext_leave m).1.settings = s.settings := by
    rw [hl.2.2.2.1, settings_of_td _ _ (awaitReady_keeps fuel _ _ hx).1,
      (searchNext_enter_effect s m).1]
  refine ⟨hl.1, ⟨hl.2.1, hl.2.2.1⟩, ⟨?_, ?_, ?_⟩, hl.2.2.2.2⟩
  · exact congrArg (fun p : Nat × Byte × Byte => p.1) hset
  · exact congrArg (fun p : Nat × Byte × Byte => p.2.1) hset
  · exact congrArg (fun p : Nat × Byte × Byte => p.2.2) hset

/-- Witness of C14: the search on a fresh driver facing `readyAtOnce`, which returns
after one poll. -/
theorem searchNext_on_return_witness :
    (((freshWith readyAtOnce).searchNext_enter false).readStatus.searchNext_leave
        false).1.transmission_data.FIRST_DATA.val.testBit 6 = false ∧
    (((freshWith readyAtOnce).searchNext_enter false).readStatus.searchNext_leave
        false).1.transmission_data.SECOND_DATA
      = (((freshWith readyAtOnce).searchNext_enter false).readStatus.searchNext_leave
        false).1.reception_data.SECOND_DATA :=
  ⟨(searchNext_on_return 1 (freshWith readyAtOnce) false
      (((freshWith readyAtOnce).searchNext_enter false).readStatus.searchNext_leave false)
      (by decide!)).1,
   (searchNext_on_return 1 (freshWith readyAtOnce) false
      (((freshWith readyAtOnce).searchNext_enter false).readStatus.searchNext_leave false)
      (by decide!)).2.1.2⟩

/-! ## Channels -/

/-- Rounding error when only an upper bound of the magnitude is known. -/
theorem roundToPrecision_error_le (p : Nat) (x : ℚ) (k : ℤ) (h : |x| < 2 ^ (k + 1)) :
    |roundToPrecision p x - x| ≤ 2 ^ (k - ((p : ℤ) - 1)) / 2 := by
  by_cases h0 : x = 0
  · have hu := two_zpow_pos (k - ((p : ℤ) - 1))
    rw [h0]
    unfold roundToPrecision
    rw [if_pos rfl, sub_self, abs_zero]
    linarith
  · have hs := binaryExponent_spec x h0
    have hlt : (2 : ℚ) ^ binaryExponent x < 2 ^ (k + 1) := lt_of_le_of_lt hs.1 h
    have hek : binaryExponent x < k + 1 :=
      (zpow_lt_zpow_iff_right₀ (by norm_num : (1 : ℚ) < 2)).mp hlt
    have he := roundToPrecision_error p x (binaryExponent x) hs.1 hs.2
    have hmono : (2 : ℚ) ^ (binaryExponent x - ((p : ℤ) - 1)) ≤ 2 ^ (k - ((p : ℤ) - 1)) :=
      zpow_le_zpow_right₀ (by norm_num) (by omega)
    linarith

theorem toDouble_two_tenths : toDouble 0.2 = 3602879701896397 / 18014398509481984 := by
  decide!

theorem toDouble_base : toDouble 87.9 = 3092706306608333 / 35184372088832 := by
  decide!

/-- The `float` that `selectChannel` computes lies within 0.00025 MHz of the exact value of
the formula, for every channel whose difference from 200 fits a 16-bit `int`. -/
theorem channel_frequency_near (c : Int) (hlo : -32568 ≤ c) (hhi : c ≤ 32767) :
    |toFloat (toDouble (toDouble 87.9 + toDouble ((((c - 200 : Int)) : ℚ) * toDouble 0.2)))
        - (87.9 + ((c : ℚ) - 200) * 0.2)| ≤ 1 / 4000 := by
  rw [toDouble_two_tenths, toDouble_base]
  have hn1 : (-32768 : ℚ) ≤ ((c - 200 : Int) : ℚ) := by exact_mod_cast (by omega : (-32768 : Int) ≤ c - 200)
  have hn2 : ((c - 200 : Int) : ℚ) ≤ 32567 := by exact_mod_cast (by omega : c - 200 ≤ (32567 : Int))
  have hc : ((c - 200 : Int) : ℚ) = (c : ℚ) - 200 := by push_cast; ring
  generalize hp : ((c - 200 : Int) : ℚ) * (3602879701896397 / 18014398509481984) = p
  have hpb : |p| < 2 ^ ((12 : ℤ) + 1) := by
    rw [← hp, abs_lt]
    norm_num
    constructor <;> linarith
  have e1 := roundToPrecision_error_le 53 p 12 hpb
  have hpb2 := abs_lt.mp hpb
  generalize ha : toDouble p = a
  have e1a : |a - p| ≤ 2 ^ ((12 : ℤ) - (((53 : Nat) : ℤ) - 1)) / 2 := by
    rw [← ha]; exact e1
  have e1b := abs_le.mp e1a
  have hsmall : (2 : ℚ) ^ ((12 : ℤ) - (((53 : Nat) : ℤ) - 1)) / 2 ≤ 1 / 1000000000000 := by
    norm_num
  have hpl : -6554 ≤ p := by rw [← hp]; linarith
  have hpu : p ≤ 6554 := by rw [← hp]; linarith
  generalize hs : (3092706306608333 / 35184372088832 : ℚ) + a = sm
  have hsb : |sm| < 2 ^ ((12 : ℤ) + 1) := by
    rw [← hs, abs_lt]
    norm_num
    constructor <;> linarith
  have e2 := roundToPrecision_error_le 53 sm 12 hsb
  generalize ht : toDouble sm = t
  have e2a : |t - sm| ≤ 2 ^ ((12 : ℤ) - (((53 : Nat) : ℤ) - 1)) / 2 := by
    rw [← ht]; exact e2
  have e2b := abs_le.mp e2a
  have hsl : -6467 ≤ sm := by rw [← hs]; linarith
  have hsu : sm ≤ 6643 := by rw [← hs]; linarith
  have htb : |t| < 2 ^ ((12 : ℤ) + 1) := by
    rw [abs_lt]
    norm_num
    constructor <;> linarith
  have e3 := roundToPrecision_error_le 24 t 12 htb
  have e3a : |toFloat t - t| ≤ 2 ^ ((12 : ℤ) - (((24 : Nat) : ℤ) - 1)) / 2 := e3
  have e3b := abs_le.mp e3a
  have h12 : (2 : ℚ) ^ ((12 : ℤ) - (((24 : Nat) : ℤ) - 1)) / 2 = 1 / 4096 := by norm_num
  rw [h12] at e3b
  rw [abs_le, ← hc]
  constructor <;> linarith

theorem frequencyW_side (hi : Byte) (f : ℚ) :
    frequencyW hi f = frequencyW (if hi.val ≠ 0 then 1 else 0) f := by
  by_cases h : hi.val ≠ 0
  · rw [if_pos h]
    unfold frequencyW
    rw [if_pos h, if_pos (by decide)]
  · rw [if_neg h]
    unfold frequencyW
    rw [if_neg h, if_neg (by decide)]

/-- For the channels 200 to 300 (87.9 MHz to 107.9 MHz) and either injection side, the PLL
word computed from the `float` of the channel is the integer part of the quotient formed
from the exact value of the formula. -/
theorem channel_word_exact : ∀ n : Fin 101, ∀ b : Bool,
    (frequencyW (if b then 1 else 0)
        (toFloat (toDouble (3092706306608333 / 35184372088832
          + toDouble ((((n.val : Nat) : Int) : ℚ)
              * (3602879701896397 / 18014398509481984))))) : ℤ)
      = ⌊4 * ((87.9 + (((n.val : Nat) : Int) : ℚ) * 0.2) * 1000000
          + (if b then 225000 else -225000)) / 32768⌋ := by
  decide!

/-- The same for channel 0 (47.9 MHz). -/
theorem channel_zero_word_exact : ∀ b : Bool,
    (frequencyW (if b then 1 else 0)
        (toFloat (toDouble (3092706306608333 / 35184372088832
          + toDouble ((((0 - 200 : Int)) : ℚ)
              * (3602879701896397 / 18014398509481984))))) : ℤ)
      = ⌊4 * ((87.9 + (((0 : Int) : ℚ) - 200) * 0.2) * 1000000
          + (if b then 225000 else -225000)) / 32768⌋ := by
  decide!

theorem channel_word (c : Int) (hi : Byte) (hc : (200 ≤ c ∧ c ≤ 300) ∨ c = 0) :
    (frequencyW hi
        (toFloat (toDouble (toDouble 87.9
          + toDouble ((((c - 200 : Int)) : ℚ) * toDouble 0.2)))) : ℤ)
      = ⌊4 * ((87.9 + ((c : ℚ) - 200) * 0.2) * 1000000
          + (if hi.val ≠ 0 then 225000 else -225000)) / 32768⌋ := by
  rw [frequencyW_side, toDouble_two_tenths, toDouble_base]
  rcases hc with ⟨h0, h1⟩ | h0
  · obtain ⟨n, hn⟩ := Int.eq_ofNat_of_zero_le (by omega : 0 ≤ c - 200)
    have hn' : n < 101 := by omega
    have hq : (c : ℚ) - 200 = ((n : Int) : ℚ) := by
      rw [← hn]; push_cast; ring
    rw [hn, hq]
    by_cases hb : hi.val ≠ 0
    · have hw := channel_word_exact ⟨n, hn'⟩ true
      rw [if_pos hb, if_pos hb]
      exact hw
    · have hw := channel_word_exact ⟨n, hn'⟩ false
      rw [if_neg hb, if_neg hb]
      exact hw
  · rw [h0]
    by_cases hb : hi.val ≠ 0
    · have hw := channel_zero_word_exact true
      rw [if_pos hb, if_pos hb]
      exact hw
    · have hw := channel_zero_word_exact false
      rw [if_neg hb, if_neg hb]
      exact hw

theorem selectFrequency_reassembled (s : TEA5767N) (f : ℚ) (m : Bool) :
    ((s.selectFrequency f m).transmission_data.FIRST_DATA.val &&& 0x3F) * 256
        + (s.selectFrequency f m).transmission_data.SECOND_DATA.val
      = frequencyW (s.selectFrequency f m).hiInjection f % 16384 := by
  cases m
  · rw [selectFrequency_false, (setFrequency_input _ f).2.2]
    exact setFrequency_reassembled _ f
  · rw [selectFrequency_true, (toggleMute_keeps _).1, (toggleMute_effect _).2.1,
      (toggleMute_effect _).2.2.1, (setFrequency_input _ f).2.2]
    exact setFrequency_reassembled _ f

theorem selectFrequency_true_written (s : TEA5767N) (f : ℚ) :
    (s.selectFrequency f true).Wire.written.head?
      = some (TEA5767_I2C_ADDRESS, (s.selectFrequency f true).transmission_data.toList) := by
  rw [selectFrequency_true, (toggleMute_effect _).2.2.2.2]
  rfl

theorem selectChannel_selectFrequency (s : TEA5767N) (c : Int) (m : Bool) :
    s.selectChannel c m
      = s.selectFrequency
          (toFloat (toDouble (toDouble 87.9 + toDouble ((((c - 200 : Int)) : ℚ) * toDouble 0.2))))
          m := by
  cases m <;> rfl

/-- C11 as stated fails: the frequency is computed in `double` and stored in a `float`, not
in exact arithmetic.  For channel 200 the value handed to `selectFrequency` is
11521229/131072 (87.90000153...), not 87.9.  For channel 462 on a freshly constructed driver
(low side selected) `selectChannel(462, true)` ends with the bus write 02 CB A0 10 00, whose
PLL word is 715, that is 17099 modulo 2^14, where the exact value 140.3 MHz of the formula
has the low-side word 17098 (02 CA on the bus). -/
theorem selectChannel_not_exact :
    fresh.selectChannel 200 true = fresh.selectFrequency (11521229 / 131072) true ∧
    (fresh.selectChannel 200 true).frequency ≠ 87.9 + (((200 : Int) : ℚ) - 200) * 0.2 ∧
    (fresh.selectChannel 462 true).hiInjection = 0 ∧
    (fresh.selectChannel 462 true).Wire.written.head?
      = some (0x60, [0x02, 0xCB, 0xA0, 0x10, 0x00]) ∧
    (fresh.selectChannel 462 true).transmission_data.toList = [0x02, 0xCB, 0xA0, 0x10, 0x00] ∧
    (0x02 &&& 0x3F) * 256 + 0xCB = 17099 % 16384 ∧
    ⌊(4 * ((87.9 + (((462 : Int) : ℚ) - 200) * 0.2) * 1000000 - 225000) / 32768 : ℚ)⌋ = 17098 := by
  decide!

/-- C11, amended.  For every channel `c` from -32568 to 32767 (so that `c` and `c - 200` fit
an `int` of 16 bits or more), `selectChannel(c, m)` does what `selectFrequency(x, m)` does,
where `x` is the `float` nearest to the `double` result of `87.9 + (c - 200) * 0.2`; `x` lies
within 0.00025 MHz of the exact value of the formula and is not clamped to the band.  When
the call returns, the PLL word in the transmission image (first byte bits 5:0, second byte)
is the word `setFrequency` computes for `x` under the injection side selected, modulo 2^14,
and with `m` true that image is the last bus write.  For the channels 200 to 300 and for
channel 0 that word is the integer part of `4 * (e * 10^6 ± 225000) / 32768` for the exact
value `e` of the formula.
Channel 200 gives the `float` nearest to 87.9, channel 300 the one nearest to 107.9 and
channel 0 the one nearest to 47.9 (each 0.0000015 above). -/
theorem selectChannel_maps_channel (s : TEA5767N) (c : Int) (m : Bool) (x : ℚ)
    (hlo : -32568 ≤ c) (hhi : c ≤ 32767)
    (hx : x = toFloat (toDouble (toDouble 87.9
      + toDouble ((((c - 200 : Int)) : ℚ) * toDouble 0.2)))) :
    s.selectChannel c m = s.selectFrequency x m ∧
    |x - (87.9 + ((c : ℚ) - 200) * 0.2)| ≤ 1 / 4000 ∧
    ((s.selectChannel c m).transmission_data.FIRST_DATA.val &&& 0x3F) * 256
        + (s.selectChannel c m).transmission_data.SECOND_DATA.val
      = frequencyW (s.selectChannel c m).hiInjection x % 16384 ∧
    (m = true → (s.selectChannel c m).Wire.written.head?
      = some (TEA5767_I2C_ADDRESS, (s.selectChannel c m).transmission_data.toList)) ∧
    ((200 ≤ c ∧ c ≤ 300) ∨ c = 0 →
      (frequencyW (s.selectChannel c m).hiInjection x : ℤ)
        = ⌊4 * ((87.9 + ((c : ℚ) - 200) * 0.2) * 1000000
            + (if (s.selectChannel c m).hiInjection.val ≠ 0 then 225000 else -225000))
            / 32768⌋) ∧
    (c = 200 → x = 11521229 / 131072) ∧
    (c = 300 → x = 14142669 / 131072) ∧
    (c = 0 → x = 6278349 / 131072) := by
  have hsel := selectChannel_selectFrequency s c m
  rw [← hx] at hsel
  refine ⟨hsel, ?_, ?_, ?_, ?_, ?_, ?_, ?_⟩
  · rw [hx]
    exact channel_frequency_near c hlo hhi
  · rw [hsel]
    exact selectFrequency_reassembled s x m
  · intro hm
    rw [hsel, hm]
    exact selectFrequency_true_written s x
  · intro hc
    rw [hx]
    exact channel_word c _ hc
  · intro h
    rw [hx, h]
    decide!
  · intro h
    rw [hx, h]
    decide!
  · intro h
    rw [hx, h]
    decide!

/-- Witness of C11 amended: channel 200 on a freshly constructed driver, muted during the
update. -/
theorem selectChannel_maps_channel_witness :
    fresh.selectChannel 200 true = fresh.selectFrequency (11521229 / 131072) true ∧
    ((fresh.selectChannel 200 true).transmission_data.FIRST_DATA.val &&& 0x3F) * 256
        + (fresh.selectChannel 200 true).transmission_data.SECOND_DATA.val
      = frequencyW (fresh.selectChannel 200 true).hiInjection (11521229 / 131072) % 16384 :=
  ⟨(selectChannel_maps_channel fresh 200 true (11521229 / 131072) (by decide) (by decide)
      (by decide!)).1,
   (selectChannel_maps_channel fresh 200 true (11521229 / 131072) (by decide) (by decide)
      (by decide!)).2.2.1⟩

/-! ## Search direction -/

theorem settings_bit7 (s t : TEA5767N) (h : t.settings = s.settings) :
    t.transmission_data.THIRD_DATA.val.testBit 7 = s.transmission_data.THIRD_DATA.val.testBit 7 := by
  have h1 := congrArg (fun p : Nat × Byte × Byte => p.1.testBit 7) h
  simp only [settings, Nat.testBit_and] at h1
  have h2 : (0b11101111 : Nat).testBit 7 = true := by decide
  simpa [h2] using h1

theorem direction_of_bit7 (b : Byte) :
    ((if b.val &&& 0b10000000 ≠ 0 then toByte 1 else toByte 0)
        = if b.val.testBit 7 then toByte 1 else toByte 0) ∧
    ((if b.val &&& 0b10000000 = 0 then toByte 1 else toByte 0)
        = if b.val.testBit 7 then toByte 0 else toByte 1) := by
  revert b
  decide!

theorem isSearchUp_of_bit7 (s : TEA5767N) :
    s.isSearchUp = (if s.transmission_data.THIRD_DATA.val.testBit 7 then 1 else 0) ∧
    s.isSearchDown = (if s.transmission_data.THIRD_DATA.val.testBit 7 then 0 else 1) :=
  direction_of_bit7 s.transmission_data.THIRD_DATA

/-- What a search started by `searchFrom(f, false)` from the state `p` leaves behind, with
an unmuting `toggleMute` after it when `m` is true: the search direction of `p` is kept,
and the log of transmissions ends with the images written after the search-mode
transmission, all with the search-mode bit clear, on top of the search-mode image, which
carries the search-mode bit and the direction bit of `p`. -/
theorem search_run (fuel : Nat) (p : TEA5767N) (f : ℚ) (m : Bool) (r' : TEA5767N × Byte)
    (hret : searchFrom fuel p f false = some r') :
    (if m then r'.1.toggleMute else r'.1).transmission_data.THIRD_DATA.val.testBit 7
      = p.transmission_data.THIRD_DATA.val.testBit 7 ∧
    ∃ (later : List Data) (e : Data) (earlier : List (Nat × List Byte)),
      (if m then r'.1.toggleMute else r'.1).Wire.written
        = later.map (fun d => (TEA5767_I2C_ADDRESS, d.toList))
            ++ (TEA5767_I2C_ADDRESS, e.toList) :: earlier ∧
      later.length = (if m then 2 else 1) ∧
      (∀ d ∈ later, d.FIRST_DATA.val.testBit 6 = false) ∧
      e.FIRST_DATA.val.testBit 6 = true ∧
      e.THIRD_DATA.val.testBit 7 = p.transmission_data.THIRD_DATA.val.testBit 7 := by
  obtain ⟨x, hx, rfl⟩ := searchNext_some fuel (p.selectFrequency f false) false r' hret
  have he := searchNext_enter_effect (p.selectFrequency f false) false
  have hk := awaitReady_keeps fuel _ _ hx
  have hl := searchNext_leave_false_effect x
  have hse : ((p.selectFrequency f false).searchNext_enter false).settings = p.settings := by
    rw [he.1, selectFrequency_false_settings]
  have hsx : x.settings = p.settings := (settings_of_td _ _ hk.1).trans hse
  have hsr : (x.searchNext_leave false).1.settings = p.settings := hl.2.2.2.1.trans hsx
  have hwe : ∃ earlier, x.Wire.written
      = (TEA5767_I2C_ADDRESS,
          ((p.selectFrequency f false).searchNext_enter false).transmission_data.toList)
        :: earlier := by
    rw [hk.2.2]
    have h := he.2.2
    cases hw : ((p.selectFrequency f false).searchNext_enter false).Wire.written with
    | nil => rw [hw] at h; cases h
    | cons a l =>
      rw [hw] at h
      exact ⟨l, by rw [Option.some.inj h]⟩
  obtain ⟨earlier, hearlier⟩ := hwe
  cases m
  · refine ⟨settings_bit7 _ _ hsr, [(x.searchNext_leave false).1.transmission_data],
      ((p.selectFrequency f false).searchNext_enter false).transmission_data, earlier,
      ?_, rfl, ?_, he.2.1, settings_bit7 _ _ hse⟩
    · show (x.searchNext_leave false).1.Wire.written = _
      rw [hl.2.2.2.2.2, hearlier]
      rfl
    · intro d hd
      rw [List.mem_singleton.mp hd]
      exact hl.1
  · have ht := toggleMute_effect (x.searchNext_leave false).1
    refine ⟨settings_bit7 _ _ ((toggleMute_settings _).trans hsr),
      [(x.searchNext_leave false).1.toggleMute.transmission_data,
        (x.searchNext_leave false).1.transmission_data],
      ((p.selectFrequency f false).searchNext_enter false).transmission_data, earlier,
      ?_, rfl, ?_, he.2.1, settings_bit7 _ _ hse⟩
    · show (x.searchNext_leave false).1.toggleMute.Wire.written = _
      rw [ht.2.2.2.2, hl.2.2.2.2.2, hearlier]
      rfl
    · intro d hd
      simp only [List.mem_cons, List.mem_singleton, List.not_mem_nil, or_false] at hd
      rcases hd with rfl | rfl
      · exact ht.1.trans hl.1
      · exact hl.1

theorem searchFromBeginning_some (fuel : Nat) (s : TEA5767N) (m : Bool) (r : TEA5767N × Byte)
    (hret : searchFromBeginning fuel s m = some r) :
    ∃ r', searchFrom fuel
        (if m then ({ s.setSearchUp with muted := false }).toggleMute else s.setSearchUp)
        87.0 false = some r' ∧
      r.1 = (if m then r'.1.toggleMute else r'.1) := by
  unfold searchFromBeginning at hret
  simp only at hret
  cases h : searchFrom fuel
      (if m then ({ s.setSearchUp with muted := false }).toggleMute else s.setSearchUp)
      87.0 false with
  | none => rw [h] at hret; cases hret
  | some r' =>
    rw [h] at hret
    exact ⟨r', rfl, by rw [← Option.some.inj hret]⟩

theorem searchFromEnd_some (fuel : Nat) (s : TEA5767N) (m : Bool) (r : TEA5767N × Byte)
    (hret : searchFromEnd fuel s m = some r) :
    ∃ r', searchFrom fuel
        (if m then ({ s.setSearchDown with muted := false }).toggleMute else s.setSearchDown)
        108.0 false = some r' ∧
      r.1 = (if m then r'.1.toggleMute else r'.1) := by
  unfold searchFromEnd at hret
  simp only at hret
  cases h : searchFrom fuel
      (if m then ({ s.setSearchDown with muted := false }).toggleMute else s.setSearchDown)
      108.0 false with
  | none => rw [h] at hret; cases hret
  | some r' =>
    rw [h] at hret
    exact ⟨r', rfl, by rw [← Option.some.inj hret]⟩

theorem mute_first_third (s : TEA5767N) (m : Bool) :
    (if m then ({ s with muted := false }).toggleMute else s).transmission_data.THIRD_DATA
      = s.transmission_data.THIRD_DATA := by
  cases m <;> rfl

/-- The search operations return once the ready flag shows: with the polling loop stopping
at the `(n + 1)`-th status read, `searchFrom` gives the state `searchNext_leave` makes of the
state after that read. -/
theorem searchFrom_returns (p : TEA5767N) (f : ℚ) (n fuel : Nat)
    (hwait : ∀ k, 1 ≤ k → k < n + 1 →
      (readStatus^[k] ((p.selectFrequency f false).searchNext_enter
        false)).reception_data.FIRST_DATA.val.testBit 7 = false)
    (hready : (readStatus^[n + 1] ((p.selectFrequency f false).searchNext_enter
        false)).reception_data.FIRST_DATA.val.testBit 7 = true)
    (hfuel : n + 1 ≤ fuel) :
    searchFrom fuel p f false
      = some ((readStatus^[n + 1] ((p.selectFrequency f false).searchNext_enter
          false)).searchNext_leave false) := by
  have h := awaitReady_stops n _ fuel hwait hready hfuel
  simp only [searchFrom, searchNext, h]

theorem searchFromBeginning_of_some (fuel : Nat) (s : TEA5767N) (m : Bool)
    (r' : TEA5767N × Byte)
    (h : searchFrom fuel
        (if m then ({ s.setSearchUp with muted := false }).toggleMute else s.setSearchUp)
        87.0 false = some r') :
    searchFromBeginning fuel s m = some (if m then r'.1.toggleMute else r'.1, r'.2) := by
  unfold searchFromBeginning
  simp only [h]

theorem searchFromEnd_of_some (fuel : Nat) (s : TEA5767N) (m : Bool)
    (r' : TEA5767N × Byte)
    (h : searchFrom fuel
        (if m then ({ s.setSearchDown with muted := false }).toggleMute else s.setSearchDown)
        108.0 false = some r') :
    searchFromEnd fuel s m = some (if m then r'.1.toggleMute else r'.1, r'.2) := by
  unfold searchFromEnd
  simp only [h]

/-- C17. Whatever the search direction was before the call, on every bus on which the
status reads after the search-mode transmission show the ready flag (first byte, bit 7) for
the first time on the `N`-th read, `N ≥ 1`, `searchFromBeginning` returns (any bound of at
least `N` polls gives a result), with `isSearchUp()` equal to 1 and `isSearchDown()` equal
to 0, and the search-mode image it wrote (the most recent transmission with the search-mode
bit, first byte bit 6, set; one or two transmissions with that bit clear follow it) has the
direction bit (third byte, bit 7) equal to 1; in the same way `searchFromEnd` returns, with
`isSearchDown()` equal to 1 and `isSearchUp()` equal to 0, and its search-mode image has
the direction bit equal to 0. -/
theorem search_direction_fixed (s : TEA5767N) (m : Bool) (N : Nat) (hN : 1 ≤ N) :
    ((∀ k, 1 ≤ k → k < N →
        (readStatus^[k] (((if m then ({ s.setSearchUp with muted := false }).toggleMute
          else s.setSearchUp).selectFrequency 87.0 false).searchNext_enter
            false)).reception_data.FIRST_DATA.val.testBit 7 = false) →
      (readStatus^[N] (((if m then ({ s.setSearchUp with muted := false }).toggleMute
          else s.setSearchUp).selectFrequency 87.0 false).searchNext_enter
            false)).reception_data.FIRST_DATA.val.testBit 7 = true →
      ∀ fuel, N ≤ fuel → ∃ r, searchFromBeginning fuel s m = some r ∧
        r.1.isSearchUp = 1 ∧ r.1.isSearchDown = 0 ∧
        ∃ (later : List Data) (e : Data) (earlier : List (Nat × List Byte)),
          r.1.Wire.written
            = later.map (fun d => (0x60, d.toList)) ++ (0x60, e.toList) :: earlier ∧
          later.length = (if m then 2 else 1) ∧
          (∀ d ∈ later, d.FIRST_DATA.val.testBit 6 = false) ∧
          e.FIRST_DATA.val.testBit 6 = true ∧
          e.THIRD_DATA.val.testBit 7 = true) ∧
    ((∀ k, 1 ≤ k → k < N →
        (readStatus^[k] (((if m then ({ s.setSearchDown with muted := false }).toggleMute
          else s.setSearchDown).selectFrequency 108.0 false).searchNext_enter
            false)).reception_data.FIRST_DATA.val.testBit 7 = false) →
      (readStatus^[N] (((if m then ({ s.setSearchDown with muted := false }).toggleMute
          else s.setSearchDown).selectFrequency 108.0 false).searchNext_enter
            false)).reception_data.FIRST_DATA.val.testBit 7 = true →
      ∀ fuel, N ≤ fuel → ∃ r, searchFromEnd fuel s m = some r ∧
        r.1.isSearchDown = 1 ∧ r.1.isSearchUp = 0 ∧
        ∃ (later : List Data) (e : Data) (earlier : List (Nat × List Byte)),
          r.1.Wire.written
            = later.map (fun d => (0x60, d.toList)) ++ (0x60, e.toList) :: earlier ∧
          later.length = (if m then 2 else 1) ∧
          (∀ d ∈ later, d.FIRST_DATA.val.testBit 6 = false) ∧
          e.FIRST_DATA.val.testBit 6 = true ∧
          e.THIRD_DATA.val.testBit 7 = false) := by
  obtain ⟨n, rfl⟩ : ∃ n, N = n + 1 := ⟨N - 1, by omega⟩
  constructor
  · intro hwait hready fuel hfuel
    have hret := searchFrom_returns _ 87.0 n fuel hwait hready hfuel
    generalize (readStatus^[n + 1] (((if m then
      ({ s.setSearchUp with muted := false }).toggleMute
      else s.setSearchUp).selectFrequency 87.0 false).searchNext_enter
        false)).searchNext_leave false = r' at hret
    have hp : (if m then ({ s.setSearchUp with muted := false }).toggleMute
        else s.setSearchUp).transmission_data.THIRD_DATA.val.testBit 7 = true := by
      rw [mute_first_third]
      exact mute_bit_set _
    obtain ⟨hbit, later, e, earlier, hw, hlen, hlater, he6, he7⟩ :=
      search_run fuel _ 87.0 m r' hret
    rw [hp] at hbit he7
    have hsome := searchFromBeginning_of_some fuel s m r' hret
    generalize (if m then r'.1.toggleMute else r'.1) = t at hbit hw hsome
    refine ⟨(t, r'.2), hsome, ?_, ?_, later, e, earlier, hw, hlen, hlater, he6, he7⟩
    · show t.isSearchUp = 1
      rw [(isSearchUp_of_bit7 t).1, hbit]
      rfl
    · show t.isSearchDown = 0
      rw [(isSearchUp_of_bit7 t).2, hbit]
      rfl
  · intro hwait hready fuel hfuel
    have hret := searchFrom_returns _ 108.0 n fuel hwait hready hfuel
    generalize (readStatus^[n + 1] (((if m then
      ({ s.setSearchDown with muted := false }).toggleMute
      else s.setSearchDown).selectFrequency 108.0 false).searchNext_enter
        false)).searchNext_leave false = r' at hret
    have hp : (if m then ({ s.setSearchDown with muted := false }).toggleMute
        else s.setSearchDown).transmission_data.THIRD_DATA.val.testBit 7 = false := by
      rw [mute_first_third]
      exact mute_bit_clear _
    obtain ⟨hbit, later, e, earlier, hw, hlen, hlater, he6, he7⟩ :=
      search_run fuel _ 108.0 m r' hret
    rw [hp] at hbit he7
    have hsome := searchFromEnd_of_some fuel s m r' hret
    generalize (if m then r'.1.toggleMute else r'.1) = t at hbit hw hsome
    refine ⟨(t, r'.2), hsome, ?_, ?_, later, e, earlier, hw, hlen, hlater, he6, he7⟩
    · show t.isSearchDown = 1
      rw [(isSearchUp_of_bit7 t).2, hbit]
      rfl
    · show t.isSearchUp = 0
      rw [(isSearchUp_of_bit7 t).1, hbit]
      rfl

/-- Witness of C17: on a fresh driver (direction bit 1 before the call) facing
`readyAfterTuning`, where the first status read after the search-mode transmission shows the
ready flag, `searchFromBeginning(true)` returns searching upwards and `searchFromEnd(true)`
returns searching downwards. -/
theorem search_direction_fixed_witness :
    fresh.isSearchUp = 1 ∧
    (∃ r, searchFromBeginning 1 (freshWith readyAfterTuning) true = some r ∧
      r.1.isSearchUp = 1 ∧ r.1.isSearchDown = 0) ∧
    (∃ r, searchFromEnd 1 (freshWith readyAfterTuning) true = some r ∧
      r.1.isSearchDown = 1 ∧ r.1.isSearchUp = 0) := by
  have hb := (search_direction_fixed (freshWith readyAfterTuning) true 1 (le_refl 1)).1
    (fun k h1 h2 => absurd h2 (by omega)) (by decide!) 1 (le_refl 1)
  have he := (search_direction_fixed (freshWith readyAfterTuning) true 1 (le_refl 1)).2
    (fun k h1 h2 => absurd h2 (by omega)) (by decide!) 1 (le_refl 1)
  obtain ⟨r, h1, h2, h3, _⟩ := hb
  obtain ⟨r', h1', h2', h3', _⟩ := he
  exact ⟨by decide!, ⟨r, h1, h2, h3⟩, ⟨r', h1', h2', h3'⟩⟩

/-! ## The search stop level -/

theorem ssl_of_settings (s t : TEA5767N) (h : t.settings = s.settings) :
    t.transmission_data.THIRD_DATA.val &&& 0x60 = s.transmission_data.THIRD_DATA.val &&& 0x60 := by
  have h1 := congrArg (fun p : Nat × Byte × Byte => p.1 &&& 0x60) h
  simp only [settings, Nat.and_assoc] at h1
  exact h1

theorem ssl_direction (b : Byte) :
    (toByte (b.val ||| 0b10000000)).val &&& 0x60 = b.val &&& 0x60 ∧
    (toByte (b.val &&& 0b01111111)).val &&& 0x60 = b.val &&& 0x60 := by
  revert b
  decide!

theorem ssl_toggles (b : Byte) (c : Bool) :
    (if c then toByte (b.val ||| 0b00000010) else toByte (b.val &&& 0b11111101)).val &&& 0x60
      = b.val &&& 0x60 ∧
    (if c then toByte (b.val ||| 0b00000100) else toByte (b.val &&& 0b11111011)).val &&& 0x60
      = b.val &&& 0x60 ∧
    (if c then toByte (b.val ||| 0b00001000) else toByte (b.val &&& 0b11110111)).val &&& 0x60
      = b.val &&& 0x60 := by
  revert b c
  decide!

theorem ssl_set (b : Byte) :
    (toByte ((toByte (b.val &&& 0b10011111)).val ||| (LOW_STOP_LEVEL <<< 5))).val / 32 % 4
      = LOW_STOP_LEVEL ∧
    (toByte ((toByte (b.val &&& 0b10011111)).val ||| (MID_STOP_LEVEL <<< 5))).val / 32 % 4
      = MID_STOP_LEVEL ∧
    (toByte ((toByte (b.val &&& 0b10011111)).val ||| (HIGH_STOP_LEVEL <<< 5))).val / 32 % 4
      = HIGH_STOP_LEVEL := by
  revert b
  decide!

theorem ssl_field (b : Byte) :
    (b.val &&& 0x60 ≠ 0 ↔ b.val / 32 % 4 ≠ 0) ∧
    (b.val / 32 % 4 ≠ 0 ↔
      (b.val / 32 % 4 = LOW_STOP_LEVEL ∨ b.val / 32 % 4 = MID_STOP_LEVEL
        ∨ b.val / 32 % 4 = HIGH_STOP_LEVEL)) ∧
    (b.val / 32 % 4 = 0 ↔ (b.val.testBit 6 = false ∧ b.val.testBit 5 = false)) := by
  revert b
  decide!

theorem searchNext_settings (fuel : Nat) (s : TEA5767N) (m : Bool) (r : TEA5767N × Byte)
    (hret : searchNext fuel s m = some r) : r.1.settings = s.settings := by
  obtain ⟨x, hx, rfl⟩ := searchNext_some fuel s m r hret
  rw [(searchNext_leave_effect x m).2.2.2.1, settings_of_td _ _ (awaitReady_keeps fuel _ _ hx).1,
    (searchNext_enter_effect s m).1]

theorem searchFrom_settings (fuel : Nat) (s : TEA5767N) (f : ℚ) (m : Bool)
    (r : TEA5767N × Byte) (hret : searchFrom fuel s f m = some r) :
    r.1.settings = s.settings := by
  have h := searchNext_settings fuel (s.selectFrequency f false) m r hret
  rw [h, selectFrequency_false_settings]

/-- A public call that is not a stop-level setter leaves the stop-level field alone. -/
theorem PublicCall.run_ssl (c : PublicCall) (s t : TEA5767N) (h : c.run s = some t) :
    t.transmission_data.THIRD_DATA.val &&& 0x60 = s.transmission_data.THIRD_DATA.val &&& 0x60 ∨
    t.transmission_data.THIRD_DATA.val / 32 % 4 ≠ 0 := by
  cases c
  case selectFrequency f m =>
    cases Option.some.inj h
    exact Or.inl (ssl_of_settings _ _ (selectFrequency_settings s f m))
  case selectChannel c m =>
    cases Option.some.inj h
    exact Or.inl (ssl_of_settings _ _ (selectChannel_settings s c m))
  case readFrequencyInMHz =>
    cases Option.some.inj h
    exact Or.inl (ssl_of_settings _ _ (loadFrequency_effect s).2.2.2.2.1)
  case setSearchUp =>
    cases Option.some.inj h
    exact Or.inl (ssl_direction _).1
  case setSearchDown =>
    cases Option.some.inj h
    exact Or.inl (ssl_direction _).2
  case setSearchLowStopLevel =>
    cases Option.some.inj h
    exact Or.inr (by rw [show (s.setSearchLowStopLevel).transmission_data.THIRD_DATA.val / 32 % 4
      = LOW_STOP_LEVEL from (ssl_set _).1]; decide)
  case setSearchMidStopLevel =>
    cases Option.some.inj h
    exact Or.inr (by rw [show (s.setSearchMidStopLevel).transmission_data.THIRD_DATA.val / 32 % 4
      = MID_STOP_LEVEL from (ssl_set _).2.1]; decide)
  case setSearchHighStopLevel =>
    cases Option.some.inj h
    exact Or.inr (by rw [show (s.setSearchHighStopLevel).transmission_data.THIRD_DATA.val / 32 % 4
      = HIGH_STOP_LEVEL from (ssl_set _).2.2]; decide)
  case toggleMute => cases Option.some.inj h; exact Or.inl rfl
  case toggleMuteLeft =>
    cases Option.some.inj h
    exact Or.inl (ssl_toggles s.transmission_data.THIRD_DATA s.mutedRight).1
  case toggleMuteRight =>
    cases Option.some.inj h
    exact Or.inl (ssl_toggles s.transmission_data.THIRD_DATA (!s.mutedRight)).2.1
  case toggleForcedMono =>
    cases Option.some.inj h
    exact Or.inl (ssl_toggles s.transmission_data.THIRD_DATA (!s.forcedMono)).2.2
  case toggleSoftMute => cases Option.some.inj h; exact Or.inl rfl
  case toggleStandby => cases Option.some.inj h; exact Or.inl rfl
  case toggleHighCutControl => cases Option.some.inj h; exact Or.inl rfl
  case toggleStereoNoiseCancelling => cases Option.some.inj h; exact Or.inl rfl
  case searchNext fuel m =>
    simp only [PublicCall.run, Option.map_eq_some'] at h
    obtain ⟨r, hr, rfl⟩ := h
    exact Or.inl (ssl_of_settings _ _ (searchNext_settings fuel s m r hr))
  case searchFrom fuel f m =>
    simp only [PublicCall.run, Option.map_eq_some'] at h
    obtain ⟨r, hr, rfl⟩ := h
    exact Or.inl (ssl_of_settings _ _ (searchFrom_settings fuel s f m r hr))
  case searchFromBeginning fuel m =>
    simp only [PublicCall.run, Option.map_eq_some'] at h
    obtain ⟨r, hr, rfl⟩ := h
    obtain ⟨r', hr', hr1⟩ := searchFromBeginning_some fuel s m r hr
    have h1 := searchFrom_settings fuel _ _ false r' hr'
    have h2 : r.1.settings = r'.1.settings := by
      rw [hr1]
      cases m <;> rfl
    have h3 := ssl_of_settings _ _ (h2.trans h1)
    rw [mute_first_third] at h3
    exact Or.inl (h3.trans (ssl_direction _).1)
  case searchFromEnd fuel m =>
    simp only [PublicCall.run, Option.map_eq_some'] at h
    obtain ⟨r, hr, rfl⟩ := h
    obtain ⟨r', hr', hr1⟩ := searchFromEnd_some fuel s m r hr
    have h1 := searchFrom_settings fuel _ _ false r' hr'
    have h2 : r.1.settings = r'.1.settings := by
      rw [hr1]
      cases m <;> rfl
    have h3 := ssl_of_settings _ _ (h2.trans h1)
    rw [mute_first_third] at h3
    exact Or.inl (h3.trans (ssl_direction _).2)
  case getSignalLevel =>
    cases Option.some.inj h
    exact Or.inl (ssl_of_settings _ _ (getSignalLevel_settings s))
  case isStereo =>
    cases Option.some.inj h
    exact Or.inl (ssl_of_settings _ _ (readStatus_settings s))
  case isStandBy =>
    cases Option.some.inj h
    exact Or.inl (ssl_of_settings _ _ (readStatus_settings s))
  all_goals
    cases Option.some.inj h
    exact Or.inl rfl

/-- C18. In every driver state reachable from the constructor by public calls the search
stop level (third byte, bits 6:5, read as a number) is never 00: it is 01 (LOW), 10 (MID)
or 11 (HIGH); and after `setSearchLowStopLevel`, `setSearchMidStopLevel`,
`setSearchHighStopLevel`, from any state, it is exactly 01, 10, 11 respectively. -/
theorem stop_level_never_zero (s : TEA5767N) (hs : Reachable s) :
    (s.transmission_data.THIRD_DATA.val / 32 % 4 = LOW_STOP_LEVEL ∨
      s.transmission_data.THIRD_DATA.val / 32 % 4 = MID_STOP_LEVEL ∨
      s.transmission_data.THIRD_DATA.val / 32 % 4 = HIGH_STOP_LEVEL) ∧
    ¬ (s.transmission_data.THIRD_DATA.val.testBit 6 = false ∧
        s.transmission_data.THIRD_DATA.val.testBit 5 = false) ∧
    (∀ t : TEA5767N,
      t.setSearchLowStopLevel.transmission_data.THIRD_DATA.val / 32 % 4 = 1 ∧
      t.setSearchMidStopLevel.transmission_data.THIRD_DATA.val / 32 % 4 = 2 ∧
      t.setSearchHighStopLevel.transmission_data.THIRD_DATA.val / 32 % 4 = 3) := by
  have hinv : s.transmission_data.THIRD_DATA.val / 32 % 4 ≠ 0 := by
    induction hs with
    | constructed mem =>
      have h2 : (new mem).transmission_data.THIRD_DATA = toByte 0xB0 := rfl
      rw [h2]
      decide
    | call c s t _ hrun ih =>
      rcases PublicCall.run_ssl c s t hrun with h | h
      · rw [← (ssl_field _).1, h, (ssl_field _).1]
        exact ih
      · exact h
  refine ⟨(ssl_field _).2.1.mp hinv, fun h => hinv ((ssl_field _).2.2.mpr h), fun t => ?_⟩
  exact ⟨(ssl_set _).1, (ssl_set _).2.1, (ssl_set _).2.2⟩

/-- Witness of C18: a fresh driver after `setSearchUp`, `toggleMuteLeft` and
`selectFrequency(100.0, true)`. -/
theorem stop_level_never_zero_witness :
    ((fresh.setSearchUp.toggleMuteLeft.selectFrequency 100 true).transmission_data.THIRD_DATA.val
        / 32 % 4 = LOW_STOP_LEVEL ∨
      (fresh.setSearchUp.toggleMuteLeft.selectFrequency 100 true).transmission_data.THIRD_DATA.val
        / 32 % 4 = MID_STOP_LEVEL ∨
      (fresh.setSearchUp.toggleMuteLeft.selectFrequency 100 true).transmission_data.THIRD_DATA.val
        / 32 % 4 = HIGH_STOP_LEVEL) :=
  (stop_level_never_zero (fresh.setSearchUp.toggleMuteLeft.selectFrequency 100 true)
    (Reachable.call (.selectFrequency 100 true) _ _
      (Reachable.call .toggleMuteLeft _ _
        (Reachable.call .setSearchUp _ _ (Reachable.constructed zeroed) rfl) rfl) rfl)).1

end TEA5767
